import Mathlib

/-!
Verification of the grant-reconciliation core of a Terraform MySQL provider.

The Go source is shallowly embedded: pure helpers (identifier formatting,
privilege parsing, principal resolution, version comparison) become Lean
functions over `String` / `List Char`; the resource operations that execute
SQL statements take an explicit executor oracle `ExecOracle` mapping a
statement to `none` (success) or `some err` (server error), and return the
list of statements issued together with the operation's outcome.
-/

namespace Mysql

/-- Embedding of `strings.HasSuffix(s, "`")`. -/
def hasSuffixBacktick (s : String) : Bool :=
  s.data.getLast? == some '`'

/-- Embedding of Go `strings.Join(xs, ",")` (comma, no space). -/
def joinWithComma (xs : List String) : String :=
  String.mk (List.intercalate [','] (xs.map String.data))

/-- Embedding of `flattenList` (util.go): renders each element through the
`template` (Go format string `"%s"` or `"'%s'"`) and joins with `", "`. -/
def flattenList (list : List String) (template : String → String) : String :=
  String.mk (List.intercalate [',', ' '] ((list.map template).map String.data))

/-- Embedding of `formatDatabaseName` (util.go). The Go code wraps the name
in backticks unless it is `*` or already ends in a backtick, then applies
`strings.Replace(q, "`PROCEDURE ", "PROCEDURE `", 1)`; under the guarding
`HasPrefix` check the single replaced occurrence is the prefix itself, so
the replacement is modelled as dropping the 11-character prefix
`` `PROCEDURE `` and re-attaching `` PROCEDURE ` ``. -/
def formatDatabaseName (database : String) : String :=
  if database ≠ "*" ∧ hasSuffixBacktick database = false then
    let quoted := "`" ++ database ++ "`"
    if "`PROCEDURE ".data.isPrefixOf quoted.data then
      "PROCEDURE `" ++ String.mk (quoted.data.drop 11)
    else quoted
  else database

/-- Embedding of `formatTableName` (util.go). -/
def formatTableName (table : String) : String :=
  if table = "" ∨ table = "*" then "*"
  else "`" ++ table ++ "`"

/-- Embedding of `userOrRole` (util.go): returns the canonical principal
string and whether it denotes a role, or an input error. -/
def userOrRole (user host role : String) (hasRoles : Bool) :
    Except String (String × Bool) :=
  if 0 < user.length ∧ 0 < host.length then
    .ok ("'" ++ user ++ "'@'" ++ host ++ "'", false)
  else if 0 < role.length then
    if hasRoles = false then
      .error "roles are only supported on MySQL 8 and above"
    else
      .ok ("'" ++ role ++ "'", true)
  else
    .error "user with host or a role is required"

/-- Numeric version of a server, as the segments go-version compares
(prerelease labels are not used by this code base). -/
structure Version where
  major : Nat
  minor : Nat
  patch : Nat
deriving DecidableEq, Repr

/-- Embedding of go-version `Version.GreaterThan`: strict lexicographic
comparison of the numeric segments. -/
def Version.GreaterThan (a b : Version) : Bool :=
  b.major < a.major ∨
    (a.major = b.major ∧
      (b.minor < a.minor ∨ (a.minor = b.minor ∧ b.patch < a.patch)))

/-- The literal `8.0.0` threshold of `supportsRoles`. -/
def requiredVersion : Version := ⟨8, 0, 0⟩

/-- Embedding of `supportsRoles` (util.go), with the server-version query
already resolved to `currentVersion`:
`hasRoles := currentVersion.GreaterThan(requiredVersion)`. -/
def supportsRoles (currentVersion : Version) : Bool :=
  currentVersion.GreaterThan requiredVersion

/-- Modelled from the spec: role support as the spec states it, a comparison
`version ≥ 8.0.0` against the threshold. -/
def specSupportsRoles (v : Version) : Bool :=
  (v == requiredVersion) || v.GreaterThan requiredVersion

/-- Result model of `db.Exec`: `none` is success, `some err` an error. -/
def ExecOracle : Type := String → Option String

/-- Embedding of the check `regexp.MustCompile("Error 1141:").MatchString(err)`:
the pattern has no metacharacters, so it is a substring match. -/
def contains1141 (err : String) : Bool :=
  err.data.tails.any ("Error 1141:".data.isPrefixOf ·)

/-- Embedding of `updatePrivileges` (resource_grant.go). Parameter names and
order follow the Go signature
`updatePrivileges(newPrivs, oldPrivs *schema.Set, db, user, database, table)`;
`schema.Set` values are modelled as lists and `Difference` as a filter.
The function issues the REVOKE statement (privileges joined with a bare
comma) before the GRANT statement and stops at the first error. -/
def updatePrivileges (newPrivs oldPrivs : List String) (db : ExecOracle)
    (user database table : String) : List String × Except String Unit :=
  let grantIfs := newPrivs.filter (fun v => !(oldPrivs.contains v))
  let revokeIfs := oldPrivs.filter (fun v => !(newPrivs.contains v))
  let grantStep : List String × Except String Unit :=
    if grantIfs.length > 0 then
      let stmtSQL := "GRANT " ++ joinWithComma grantIfs ++ " ON " ++ database ++
        "." ++ table ++ " TO " ++ user
      match db stmtSQL with
      | some err => ([stmtSQL], .error err)
      | none => ([stmtSQL], .ok ())
    else ([], .ok ())
  if revokeIfs.length > 0 then
    let stmtSQL := "REVOKE " ++ joinWithComma revokeIfs ++ " ON " ++ database ++
      "." ++ table ++ " FROM " ++ user
    match db stmtSQL with
    | some err => ([stmtSQL], .error err)
    | none => (stmtSQL :: grantStep.1, grantStep.2)
  else grantStep

/-- Embedding of `UpdateGrant` (resource_grant.go) after the connection and
capability probe have been resolved. `oldPrivs`/`newPrivs` are the pair
`d.GetChange("privileges")`; as in the source, the database name is
formatted but the table name is not, and the call site passes
`(oldPrivs, newPrivs)` into `updatePrivileges`'s `(newPrivs, oldPrivs)`
parameters. -/
def UpdateGrant (db : ExecOracle) (user host role : String) (hasRoles : Bool)
    (database table : String) (hasChange : Bool)
    (oldPrivs newPrivs : List String) : List String × Except String Unit :=
  match userOrRole user host role hasRoles with
  | .error e => ([], .error e)
  | .ok (uor, _) =>
    let databaseF := formatDatabaseName database
    if hasChange then
      updatePrivileges oldPrivs newPrivs db uor databaseF table
    else ([], .ok ())

/-- Modelled from the spec: single-scope reconciliation as §4.5 states it,
`toRevoke = current − desired` and `toGrant = desired − current`, one
REVOKE statement first when `toRevoke` is non-empty, then one GRANT
statement when `toGrant` is non-empty. -/
def specSingleScopeRun (db : ExecOracle) (current desired : List String)
    (principal database table : String) : List String × Except String Unit :=
  let toRevoke := current.filter (fun v => !(desired.contains v))
  let toGrant := desired.filter (fun v => !(current.contains v))
  let grantStep : List String × Except String Unit :=
    if toGrant.length > 0 then
      let stmtSQL := "GRANT " ++ joinWithComma toGrant ++ " ON " ++ database ++
        "." ++ table ++ " TO " ++ principal
      match db stmtSQL with
      | some err => ([stmtSQL], .error err)
      | none => ([stmtSQL], .ok ())
    else ([], .ok ())
  if toRevoke.length > 0 then
    let stmtSQL := "REVOKE " ++ joinWithComma toRevoke ++ " ON " ++ database ++
      "." ++ table ++ " FROM " ++ principal
    match db stmtSQL with
    | some err => ([stmtSQL], .error err)
    | none => (stmtSQL :: grantStep.1, grantStep.2)
  else grantStep

/-- Embedding of `CreateGrant` (resource_grant.go) / the loop body of
`CreateGrants` (resource_grants.go) up to and including executing the built
statement. `d.GetOk` on a set attribute is true exactly when the set is
non-empty, so the privilege/role branch is selected on non-emptiness. -/
def CreateGrant (db : ExecOracle) (user host role : String) (hasRoles : Bool)
    (privileges roles : List String) (database table tlsOption : String)
    (grant : Bool) : List String × Except String Unit :=
  let chosen : Except String (String × Bool × Nat) :=
    if privileges.length > 0 then
      .ok (flattenList privileges (fun s => s), true, 0)
    else if roles.length > 0 then
      if hasRoles = false then
        .error "roles are only supported on MySQL 8 and above"
      else
        .ok (flattenList roles (fun s => "'" ++ s ++ "'"), false, roles.length)
    else .error "one of privileges or roles is required"
  match chosen with
  | .error e => ([], .error e)
  | .ok (privilegesOrRoles, hasPrivs, rolesGranted) =>
    match userOrRole user host role hasRoles with
    | .error e => ([], .error e)
    | .ok (uor, isRole) =>
      let databaseF := formatDatabaseName database
      let tableF := formatTableName table
      let grantOn :=
        if (isRole = false ∨ hasPrivs = true) ∧ rolesGranted = 0 then
          " ON " ++ databaseF ++ "." ++ tableF
        else ""
      let stmt1 := "GRANT " ++ privilegesOrRoles ++ grantOn ++ " TO " ++ uor
      let stmt2 :=
        if hasRoles = false ∧ tlsOption ≠ "" then
          stmt1 ++ " REQUIRE " ++ tlsOption
        else stmt1
      let stmtSQL :=
        if hasRoles = false ∧ isRole = false ∧ grant = true then
          stmt2 ++ " WITH GRANT OPTION"
        else stmt2
      let outcome : Except String Unit :=
        match db stmtSQL with
        | some e => .error ("error running SQL (" ++ stmtSQL ++ "): " ++ e)
        | none => .ok ()
      ([stmtSQL], outcome)

/-- Embedding of `DeleteGrant` (resource_grant.go): for a non-role principal
with no declared roles, first `REVOKE GRANT OPTION`, tolerating the
server's error 1141 as success; then revoke the declared roles, or the
declared privileges, or `ALL`. -/
def DeleteGrant (db : ExecOracle) (user host role : String) (hasRoles : Bool)
    (roles privileges : List String) (database table : String) :
    List String × Except String Unit :=
  let databaseF := formatDatabaseName database
  let tableF := formatTableName table
  match userOrRole user host role hasRoles with
  | .error e => ([], .error e)
  | .ok (uor, isRole) =>
    let revokeAll : List String × Except String Unit :=
      let whatToRevoke :=
        if roles.length > 0 then flattenList roles (fun s => "'" ++ s ++ "'")
        else if privileges.length > 0 then
          flattenList privileges (fun s => s) ++ " ON " ++ databaseF ++ "." ++ tableF
        else "ALL ON " ++ databaseF ++ "." ++ tableF
      let sql := "REVOKE " ++ whatToRevoke ++ " FROM " ++ uor
      match db sql with
      | some e => ([sql], .error ("error revoking ALL (" ++ sql ++ "): " ++ e))
      | none => ([sql], .ok ())
    if isRole = false ∧ roles.length = 0 then
      let sql := "REVOKE GRANT OPTION ON " ++ databaseF ++ "." ++ tableF ++
        " FROM " ++ uor
      match db sql with
      | some e =>
        if contains1141 e then ([sql], .ok ())
        else ([sql], .error ("error revoking GRANT (" ++ sql ++ "): " ++ e))
      | none => (sql :: revokeAll.1, revokeAll.2)
    else revokeAll

/-- The first statement `DeleteGrant` issues for a non-role principal with
no declared roles (resource_grant.go line 337). -/
def deleteFirstStmt (user host database table : String) : String :=
  "REVOKE GRANT OPTION ON " ++ formatDatabaseName database ++ "." ++
    formatTableName table ++ " FROM " ++ ("'" ++ user ++ "'@'" ++ host ++ "'")

/-- One parsed line of the server's `SHOW GRANTS` report (`MySQLGrant`). -/
structure MySQLGrant where
  Database : String
  Table : String
  Privileges : List String
  Grant : Bool
deriving DecidableEq, Repr

/-- The slice of resource state `ReadGrant` touches: the id (`d.SetId`),
and the `privileges` and `grant` attributes (`d.Set`). -/
structure GrantResourceState where
  id : String
  privileges : List String
  grant : Bool
deriving DecidableEq, Repr

/-- Embedding of `ReadGrant` (resource_grant.go) after the connection and
capability probe have been resolved; `showGrantsResult` is the outcome of
`showGrants(db, userOrRole)` (query error, scan error or parse error all
surface as `.error`). On any such error the id is cleared and the read
reports success; otherwise the first grant whose raw database and table
match the resource's is copied into state. -/
def ReadGrant (user host role : String) (hasRoles : Bool)
    (showGrantsResult : Except String (List MySQLGrant))
    (database table : String) (d : GrantResourceState) :
    GrantResourceState × Except String Unit :=
  match userOrRole user host role hasRoles with
  | .error e => (d, .error e)
  | .ok _ =>
    match showGrantsResult with
    | .error _ => ({ d with id := "" }, .ok ())
    | .ok grants =>
      match grants.find? (fun g => g.Database == database && g.Table == table) with
      | some g => ({ d with privileges := g.Privileges, grant := g.Grant }, .ok ())
      | none => ({ d with privileges := [], grant := false }, .ok ())

/-- One entry of the `grants` block (the fields `updatePrivilegesMulti` and
the set difference read). -/
structure SubGrant where
  database : String
  table : String
  privileges : List String
  roles : List String
  grant : Bool
deriving DecidableEq, Repr

/-- The matching condition of `updatePrivilegesMulti` (resource_grants.go
lines 311-312), with the source's operand order. -/
def grantsKeyMatch (oldG newG : SubGrant) : Bool :=
  (formatTableName newG.table == formatTableName oldG.table) &&
  (formatDatabaseName oldG.database == formatDatabaseName newG.database)

/-- The first loop of `updatePrivilegesMulti`: each old spec is either
matched against the first new spec with the same formatted key and
reconciled, or fully revoked (`desired = empty`); the loop stops at the
first statement error. -/
def runUpdates (db : ExecOracle) (user : String) (news : List SubGrant) :
    List SubGrant → List String × Except String Unit
  | [] => ([], .ok ())
  | o :: olds =>
    let step :=
      match news.find? (fun n => grantsKeyMatch o n) with
      | some n =>
        updatePrivileges n.privileges o.privileges db user
          (formatDatabaseName o.database) (formatTableName o.table)
      | none =>
        updatePrivileges [] o.privileges db user
          (formatDatabaseName o.database) (formatTableName o.table)
    match step.2 with
    | .error e => (step.1, .error e)
    | .ok _ =>
      let rest := runUpdates db user news olds
      (step.1 ++ rest.1, rest.2)

/-- The second loop of `updatePrivilegesMulti`: each new spec with no
old spec of the same formatted key is fully granted (`current = empty`). -/
def runCreates (db : ExecOracle) (user : String) (olds : List SubGrant) :
    List SubGrant → List String × Except String Unit
  | [] => ([], .ok ())
  | n :: news =>
    if olds.any (fun o => grantsKeyMatch o n) then runCreates db user olds news
    else
      let step := updatePrivileges n.privileges [] db user
        (formatDatabaseName n.database) (formatTableName n.table)
      match step.2 with
      | .error e => (step.1, .error e)
      | .ok _ =>
        let rest := runCreates db user olds news
        (step.1 ++ rest.1, rest.2)

/-- Embedding of `updatePrivilegesMulti` (resource_grants.go): the changed
grant specs are the two set differences of the old and new collections;
the old-side loop runs first, then the new-side loop. -/
def updatePrivilegesMulti (db : ExecOracle) (user : String)
    (oldGrants newGrants : List SubGrant) : List String × Except String Unit :=
  let newPrivsList := newGrants.filter (fun g => !(oldGrants.contains g))
  let oldPrivsList := oldGrants.filter (fun g => !(newGrants.contains g))
  let first := runUpdates db user newPrivsList oldPrivsList
  match first.2 with
  | .error e => (first.1, .error e)
  | .ok _ =>
    let second := runCreates db user oldPrivsList newPrivsList
    (first.1 ++ second.1, second.2)

/-- Modelled from the spec: two specs address the same scope when their
database identifiers and table identifiers are equal after applying the
Identifier Formatter to both. -/
def specKeyEq (a b : SubGrant) : Bool :=
  (formatDatabaseName a.database == formatDatabaseName b.database) &&
  (formatTableName a.table == formatTableName b.table)

/-- Modelled from the spec (§4.5 multi-scope, old side): every old spec is
reconciled against the matching new spec of the whole new collection, or
against the empty desired set when none matches. -/
def specMultiOld (db : ExecOracle) (user : String) (news : List SubGrant) :
    List SubGrant → List String × Except String Unit
  | [] => ([], .ok ())
  | o :: olds =>
    let step :=
      match news.find? (fun n => specKeyEq o n) with
      | some n =>
        specSingleScopeRun db o.privileges n.privileges user
          (formatDatabaseName o.database) (formatTableName o.table)
      | none =>
        specSingleScopeRun db o.privileges [] user
          (formatDatabaseName o.database) (formatTableName o.table)
    match step.2 with
    | .error e => (step.1, .error e)
    | .ok _ =>
      let rest := specMultiOld db user news olds
      (step.1 ++ rest.1, rest.2)

/-- Modelled from the spec (§4.5 multi-scope, new side): every new spec with
no old spec of the same scope in the whole old collection is granted from
the empty current set. -/
def specMultiNew (db : ExecOracle) (user : String) (olds : List SubGrant) :
    List SubGrant → List String × Except String Unit
  | [] => ([], .ok ())
  | n :: news =>
    if olds.any (fun o => specKeyEq o n) then specMultiNew db user olds news
    else
      let step := specSingleScopeRun db [] n.privileges user
        (formatDatabaseName n.database) (formatTableName n.table)
      match step.2 with
      | .error e => (step.1, .error e)
      | .ok _ =>
        let rest := specMultiNew db user olds news
        (step.1 ++ rest.1, rest.2)

/-- Modelled from the spec (§4.5 multi-scope): reconcile every old spec
against the whole new collection, then grant every unmatched new spec. -/
def specMultiScopeRun (db : ExecOracle) (user : String)
    (oldGrants newGrants : List SubGrant) : List String × Except String Unit :=
  let first := specMultiOld db user newGrants oldGrants
  match first.2 with
  | .error e => (first.1, .error e)
  | .ok _ =>
    let second := specMultiNew db user oldGrants newGrants
    (first.1 ++ second.1, second.2)

/-- Formatted scope key of a spec, for stating key-distinctness. -/
def scopeKey (g : SubGrant) : String × String :=
  (formatDatabaseName g.database, formatTableName g.table)


deriving instance DecidableEq for Except

/-- Distinct formatted scope keys within a collection of grant specs. -/
def keysDistinct (l : List SubGrant) : Prop :=
  l.Pairwise (fun a b => scopeKey a ≠ scopeKey b)

instance keysDistinctDecidable (l : List SubGrant) : Decidable (keysDistinct l) :=
  inferInstanceAs (Decidable (l.Pairwise (fun a b => scopeKey a ≠ scopeKey b)))

def isUpperAZ (c : Char) : Bool := 'A' ≤ c && c ≤ 'Z'

def isColChar (c : Char) : Bool :=
  ('a' ≤ c && c ≤ 'z') || ('A' ≤ c && c ≤ 'Z') || ('0' ≤ c && c ≤ '9') ||
    c == '_' || c == ',' || c == ' ' || c == '`'

def matchAlt1Cols (caps sp : List Char) (r2 : List Char) :
    Option (List Char × List Char) :=
  let cols := r2.takeWhile isColChar
  let r3 := r2.dropWhile isColChar
  if cols.isEmpty then none
  else
    match r3 with
    | ')' :: r4 => some (caps ++ sp ++ '(' :: (cols ++ [')']), r4)
    | _ => none

def matchAlt1 (l : List Char) : Option (List Char × List Char) :=
  let caps := l.takeWhile isUpperAZ
  let r := l.dropWhile isUpperAZ
  if caps.isEmpty then none
  else
    match r with
    | '(' :: r2 => matchAlt1Cols caps [] r2
    | ' ' :: '(' :: r2 => matchAlt1Cols caps [' '] r2
    | _ => none

def matchAlt2 (l : List Char) : Option (List Char × List Char) :=
  let w1 := l.takeWhile isUpperAZ
  let r1 := l.dropWhile isUpperAZ
  if w1.isEmpty then none
  else
    match r1 with
    | ' ' :: r2 =>
      let w2 := r2.takeWhile isUpperAZ
      let r3 := r2.dropWhile isUpperAZ
      if w2.isEmpty then none
      else
        match r3 with
        | ' ' :: r4 =>
          let w3 := r4.takeWhile isUpperAZ
          let r5 := r4.dropWhile isUpperAZ
          if w3.isEmpty then none
          else some (w1 ++ ' ' :: (w2 ++ ' ' :: w3), r5)
        | _ => none
    | _ => none

def matchAlt3 (l : List Char) : Option (List Char × List Char) :=
  let w1 := l.takeWhile isUpperAZ
  let r1 := l.dropWhile isUpperAZ
  if w1.isEmpty then none
  else
    match r1 with
    | ' ' :: r2 =>
      let w2 := r2.takeWhile isUpperAZ
      let r3 := r2.dropWhile isUpperAZ
      if w2.isEmpty then none
      else some (w1 ++ ' ' :: w2, r3)
    | _ => none

def matchAlt4 (l : List Char) : Option (List Char × List Char) :=
  let w := l.takeWhile isUpperAZ
  if w.isEmpty then none else some (w, l.dropWhile isUpperAZ)

def matchToken (l : List Char) : Option (List Char × List Char) :=
  match matchAlt1 l with
  | some r => some r
  | none =>
    match matchAlt2 l with
    | some r => some r
    | none =>
      match matchAlt3 l with
      | some r => some r
      | none => matchAlt4 l

def tokenizeGo : Nat → List Char → List (List Char)
  | 0, _ => []
  | _ + 1, [] => []
  | fuel + 1, c :: rest =>
    match matchToken (c :: rest) with
    | some (t, r) => t :: tokenizeGo fuel r
    | none => tokenizeGo fuel rest

def findAllTokens (l : List Char) : List (List Char) :=
  tokenizeGo l.length l

def splitOnChar (sep : Char) : List Char → List (List Char)
  | [] => [[]]
  | c :: rest =>
    let ps := splitOnChar sep rest
    if c = sep then [] :: ps
    else (c :: ps.headD []) :: ps.tail

def splitCommaSpace : List Char → List (List Char)
  | [] => [[]]
  | ',' :: ' ' :: rest => [] :: splitCommaSpace rest
  | c :: rest =>
    let ps := splitCommaSpace rest
    (c :: ps.headD []) :: ps.tail

def removeFirstChar (target : Char) : List Char → List Char
  | [] => []
  | c :: rest => if c = target then rest else c :: removeFirstChar target rest

def isSpaceChar (c : Char) : Bool :=
  c == ' ' || c == '\t' || c == '\n' || c == '\r'

def trimSpace (l : List Char) : List Char :=
  ((l.dropWhile isSpaceChar).reverse.dropWhile isSpaceChar).reverse

def sortStrings (ls : List (List Char)) : List (List Char) :=
  List.insertionSort (· ≤ ·) ls

def joinCommaSpace (ls : List (List Char)) : List Char :=
  List.intercalate [',', ' '] ls

def transformTok (t : List Char) : List Char :=
  if t.contains '(' then
    let parts := splitOnChar '(' t
    let grantAction := trimSpace (parts.headD [])
    let part1 := (parts.drop 1).headD []
    let columns := splitCommaSpace (removeFirstChar ')' part1)
    let sorted := sortStrings columns
    grantAction ++ ' ' :: '(' :: (joinCommaSpace sorted ++ [')'])
  else trimSpace t

def parsePrivileges (privilegesString : String) : List String :=
  (findAllTokens privilegesString.data).map (fun t => String.mk (transformTok t))

def upperWord (w : List Char) : Prop := w ≠ [] ∧ ∀ c ∈ w, isUpperAZ c = true

def colsOK (cols : List Char) : Prop := cols ≠ [] ∧ ∀ c ∈ cols, isColChar c = true

def Shape1 (t : List Char) : Prop :=
  ∃ caps sp cols, upperWord caps ∧ (sp = [] ∨ sp = [' ']) ∧ colsOK cols ∧
    t = caps ++ sp ++ '(' :: (cols ++ [')'])

def Shape2 (t : List Char) : Prop :=
  ∃ w1 w2 w3, upperWord w1 ∧ upperWord w2 ∧ upperWord w3 ∧
    t = w1 ++ ' ' :: (w2 ++ ' ' :: w3)

def Shape3 (t : List Char) : Prop :=
  ∃ w1 w2, upperWord w1 ∧ upperWord w2 ∧ t = w1 ++ ' ' :: w2

def Shape4 (t : List Char) : Prop := upperWord t

def TokenShape (t : List Char) : Prop := Shape1 t ∨ Shape2 t ∨ Shape3 t ∨ Shape4 t

def CanonS1 (t : List Char) : Prop :=
  ∃ caps cols, upperWord caps ∧ colsOK cols ∧
    sortStrings (splitCommaSpace cols) = splitCommaSpace cols ∧
    t = caps ++ ' ' :: '(' :: (cols ++ [')'])

def CanonTok (t : List Char) : Prop := CanonS1 t ∨ Shape2 t ∨ Shape3 t ∨ Shape4 t

/-- Whether a character list contains the separator `", "` as a substring. -/
def hasCS : List Char → Bool
  | [] => false
  | [_] => false
  | x :: y :: rest => (x == ',' && y == ' ') || hasCS (y :: rest)

/-- The remainder after a rendered token: empty, or the `", "` separator. -/
def sepStart (r : List Char) : Prop := r = [] ∨ ∃ rr, r = ',' :: rr

example : parsePrivileges "SELECT, UPDATE, DELETE" = ["SELECT", "UPDATE", "DELETE"] := by decide
example : parsePrivileges "SELECT,UPDATE,DELETE" = ["SELECT", "UPDATE", "DELETE"] := by decide
example : parsePrivileges "SELECT (id, user),UPDATE, DELETE" = ["SELECT (id, user)", "UPDATE", "DELETE"] := by decide
example : parsePrivileges "SELECT (user, id), UPDATE, DELETE" = ["SELECT (id, user)", "UPDATE", "DELETE"] := by decide
example : parsePrivileges "GRANT OPTION, ALTER ROUTINE" = ["GRANT OPTION", "ALTER ROUTINE"] := by decide
example : parsePrivileges "SELECT (`a b`, c)" = ["SELECT (`a b`, c)"] := by decide
example : flattenList (parsePrivileges "SELECT (user, id), UPDATE") (fun x => x) = "SELECT (id, user), UPDATE" := by decide

/-! ## Small string helpers (embeddings of `strings` package calls) -/

/-! ## Identifier Formatter (`formatDatabaseName`, `formatTableName`) -/

/-! ## Principal Resolver (`userOrRole`) -/

/-! ## Capability Probe (`supportsRoles`) -/

/-! ## Statement execution model

The Go functions under verification issue SQL statements through
`db.Exec`. An `ExecOracle` resolves a statement text to `none` (success)
or `some err` (the error string the driver returns). -/

/-! ## Single-scope reconciliation (`updatePrivileges`, `UpdateGrant`) -/

/-! ## Grant creation (`CreateGrant` / the per-spec body of `CreateGrants`) -/

/-! ## Grant deletion (`DeleteGrant` / the per-spec body of `DeleteGrants`) -/

/-! ## Grant read (`ReadGrant`) -/

/-! ## Multi-scope reconciliation (`updatePrivilegesMulti`) -/

/-- C3: the claim fails on the code. `supportsRoles` uses go-version's strict `GreaterThan` against 8.0.0, so a server reporting exactly 8.0.0 is denied role support, while the spec demands `version ≥ 8.0.0` (true at 8.0.0); on every other version the code and the spec agree. -/
theorem supportsRoles_boundary_bug :
    supportsRoles ⟨8, 0, 0⟩ = false ∧ specSupportsRoles ⟨8, 0, 0⟩ = true ∧
    (∀ v : Version, v ≠ requiredVersion → supportsRoles v = specSupportsRoles v) := by
  refine ⟨by decide, by decide, ?_⟩
  intro v hv
  simp [supportsRoles, specSupportsRoles, beq_eq_false_iff_ne.mpr hv]

/-- C6: the principal resolver returns the non-role principal `'user'@'host'` whenever user and host are both non-empty (even when a role is also supplied); otherwise a non-empty role fails without server role support and resolves to the role principal `'role'` with it; with neither input it fails with an input error. The resolver is a total function. -/
theorem userOrRole_resolution :
    (∀ user host role : String, ∀ hasRoles : Bool,
      0 < user.length → 0 < host.length →
        userOrRole user host role hasRoles =
          .ok ("'" ++ user ++ "'@'" ++ host ++ "'", false)) ∧
    (∀ user host role : String, ¬(0 < user.length ∧ 0 < host.length) →
      0 < role.length →
        userOrRole user host role false =
          .error "roles are only supported on MySQL 8 and above") ∧
    (∀ user host role : String, ¬(0 < user.length ∧ 0 < host.length) →
      0 < role.length →
        userOrRole user host role true = .ok ("'" ++ role ++ "'", true)) ∧
    (∀ user host : String, ∀ hasRoles : Bool,
      ¬(0 < user.length ∧ 0 < host.length) →
        userOrRole user host "" hasRoles =
          .error "user with host or a role is required") := by
  refine ⟨?_, ?_, ?_, ?_⟩
  · intro u h r b hu hh
    simp [userOrRole, hu, hh]
  · intro u h r hn hr
    simp [userOrRole, hn, hr]
  · intro u h r hn hr
    simp [userOrRole, hn, hr]
  · intro u h b hn
    simp [userOrRole, hn]

theorem userOrRole_resolution_witness :
    userOrRole "jdoe" "example.com" "r1" true = .ok ("'jdoe'@'example.com'", false) :=
  userOrRole_resolution.1 "jdoe" "example.com" "r1" true (by decide) (by decide)

/-- C9: identifier formatting: the wildcard `*` passes through unquoted, a plain database name is backtick-quoted, a name already ending in the quote character is returned unchanged, a name beginning with `PROCEDURE ` is quoted with PROCEDURE left outside the quotes, and the empty or wildcard table name becomes `*`. Both formatters are total functions. -/
theorem format_identifiers_spec :
    formatDatabaseName "*" = "*" ∧
    formatDatabaseName "mydb" = "`mydb`" ∧
    (∀ s : String, hasSuffixBacktick s = true → formatDatabaseName s = s) ∧
    (∀ rest : String, hasSuffixBacktick ("PROCEDURE " ++ rest) = false →
      formatDatabaseName ("PROCEDURE " ++ rest) = "PROCEDURE `" ++ rest ++ "`") ∧
    formatTableName "" = "*" ∧ formatTableName "*" = "*" ∧
    formatTableName "t1" = "`t1`" := by
  refine ⟨by decide, by decide, ?_, ?_, by decide, by decide, by decide⟩
  · intro s hs
    simp [formatDatabaseName, hs]
  · intro rest h
    have hne : ("PROCEDURE " ++ rest) ≠ "*" := by
      intro he
      have := congrArg String.data he
      rw [String.data_append] at this
      have hlen := congrArg List.length this
      simp at hlen
    have hquoted : ("`" ++ ("PROCEDURE " ++ rest) ++ "`").data =
        "`PROCEDURE ".data ++ (rest.data ++ "`".data) := by
      simp [String.data_append]
    rw [formatDatabaseName, if_pos ⟨hne, h⟩]
    simp only [hquoted]
    rw [if_pos (List.isPrefixOf_iff_prefix.mpr (List.prefix_append _ _))]
    have hdrop := List.drop_left "`PROCEDURE ".data (rest.data ++ "`".data)
    rw [show ("`PROCEDURE ".data).length = 11 from rfl] at hdrop
    rw [hdrop]
    apply String.ext
    simp [String.data_append]

theorem format_identifiers_witness :
    formatDatabaseName "PROCEDURE do_stuff" = "PROCEDURE `do_stuff`" :=
  format_identifiers_spec.2.2.2.1 "do_stuff" (by decide)

/-- C10: for every error returned by the grant-snapshot read, `ReadGrant` clears the resource id (marking the resource absent) and returns success; no snapshot-read failure surfaces as an error. -/
theorem readGrant_error_absent :
    ∀ (user host role : String) (hasRoles : Bool) (e database table : String)
      (d : GrantResourceState),
      (userOrRole user host role hasRoles).isOk = true →
      ReadGrant user host role hasRoles (.error e) database table d =
        ({ d with id := "" }, .ok ()) := by
  intro u h r b e db tbl d hok
  rw [ReadGrant]
  match hu : userOrRole u h r b with
  | .error e' => rw [hu] at hok; simp [Except.isOk, Except.toBool] at hok
  | .ok p => rfl

theorem readGrant_error_witness :
    ReadGrant "jdoe" "example.com" "" true (.error "driver: bad connection")
        "appdb" "*" ⟨"jdoe@example.com:appdb", ["SELECT"], true⟩ =
      (⟨"", ["SELECT"], true⟩, .ok ()) :=
  readGrant_error_absent "jdoe" "example.com" "" true "driver: bad connection"
    "appdb" "*" ⟨"jdoe@example.com:appdb", ["SELECT"], true⟩ (by decide)

/-- C1: the claim fails on the code. `UpdateGrant` passes `(oldPrivs, newPrivs)` into `updatePrivileges`, whose parameters are `(newPrivs, oldPrivs)`, so the single-scope update REVOKEs `desired − current` and GRANTs `current − desired` — the opposite of the claimed statements. At current = [SELECT], desired = [SELECT, UPDATE] the code issues exactly one `REVOKE UPDATE` and no GRANT, while the spec's single-scope reconciliation issues exactly one `GRANT UPDATE` and no REVOKE. -/
theorem updateGrant_swapped_diff_bug :
    UpdateGrant (fun _ => none) "jdoe" "example.com" "" false "d1" "t1" true
        ["SELECT"] ["SELECT", "UPDATE"] =
      (["REVOKE UPDATE ON `d1`.t1 FROM 'jdoe'@'example.com'"], .ok ()) ∧
    specSingleScopeRun (fun _ => none) ["SELECT"] ["SELECT", "UPDATE"]
        "'jdoe'@'example.com'" "`d1`" "t1" =
      (["GRANT UPDATE ON `d1`.t1 TO 'jdoe'@'example.com'"], .ok ()) := by
  constructor <;> rfl

/-- C5: deleting a non-role principal's spec that declares no roles first issues `REVOKE GRANT OPTION ON <scope> FROM <principal>`; if the server answers with an error matching `Error 1141:` the whole deletion returns success with no further statement, and any other error fails the deletion. -/
theorem deleteGrant_idempotent_1141 :
    ∀ (db : ExecOracle) (user host role : String) (hasRoles : Bool)
      (privileges : List String) (database table : String),
      0 < user.length → 0 < host.length →
      ((DeleteGrant db user host role hasRoles [] privileges database table).1.head? =
         some (deleteFirstStmt user host database table)) ∧
      (∀ e, db (deleteFirstStmt user host database table) = some e →
        contains1141 e = true →
          DeleteGrant db user host role hasRoles [] privileges database table =
            ([deleteFirstStmt user host database table], .ok ())) ∧
      (∀ e, db (deleteFirstStmt user host database table) = some e →
        contains1141 e = false →
          DeleteGrant db user host role hasRoles [] privileges database table =
            ([deleteFirstStmt user host database table],
             .error ("error revoking GRANT (" ++
               deleteFirstStmt user host database table ++ "): " ++ e))) := by
  intro db u h r hr privs dbn tbl hu hh
  have huser : userOrRole u h r hr = .ok ("'" ++ u ++ "'@'" ++ h ++ "'", false) := by
    simp [userOrRole, hu, hh]
  refine ⟨?_, ?_, ?_⟩
  · cases hdb : db (deleteFirstStmt u h dbn tbl) with
    | none =>
      simp only [deleteFirstStmt] at hdb
      simp [DeleteGrant, huser, deleteFirstStmt, hdb]
    | some e =>
      simp only [deleteFirstStmt] at hdb
      cases hc : contains1141 e <;>
        simp [DeleteGrant, huser, deleteFirstStmt, hdb, hc]
  · intro e hdb hc
    simp only [deleteFirstStmt] at hdb
    simp [DeleteGrant, huser, deleteFirstStmt, hdb, hc]
  · intro e hdb hc
    simp only [deleteFirstStmt] at hdb
    simp [DeleteGrant, huser, deleteFirstStmt, hdb, hc]

theorem deleteGrant_idempotent_witness :
    DeleteGrant
        (fun _ => some "Error 1141: There is no such grant defined for user")
        "jdoe" "example.com" "" false [] ["SELECT"] "d1" "" =
      (["REVOKE GRANT OPTION ON `d1`.* FROM 'jdoe'@'example.com'"], .ok ()) :=
  (deleteGrant_idempotent_1141
      (fun _ => some "Error 1141: There is no such grant defined for user")
      "jdoe" "example.com" "" false ["SELECT"] "d1" "" (by decide) (by decide)).2.1
    _ rfl (by decide)

/-- C4: on every successful `CreateGrant` path the built statement omits the `ON <database>.<table>` clause exactly when the spec is role-based, omits the `REQUIRE <tlsOption>` clause exactly when the server supports roles or no TLS option is declared, and appends `WITH GRANT OPTION` exactly when the spec is privilege-based, the principal is not a role, the grant flag is set, and the server does not support roles. -/
theorem createGrant_clause_conditions :
    ∀ (db : ExecOracle) (user host role : String) (hasRoles : Bool)
      (privileges roles : List String) (database table tlsOption : String)
      (grant : Bool) (p : String) (isRole : Bool),
      (privileges ≠ [] ∨ (roles ≠ [] ∧ hasRoles = true)) →
      userOrRole user host role hasRoles = .ok (p, isRole) →
      (CreateGrant db user host role hasRoles privileges roles database table
          tlsOption grant).1 =
        ["GRANT " ++
          (if privileges ≠ [] then flattenList privileges (fun s => s)
           else flattenList roles (fun s => "'" ++ s ++ "'")) ++
          (if privileges = [] ∧ roles ≠ [] then ""
           else " ON " ++ formatDatabaseName database ++ "." ++ formatTableName table) ++
          " TO " ++ p ++
          (if hasRoles = true ∨ tlsOption = "" then "" else " REQUIRE " ++ tlsOption) ++
          (if privileges ≠ [] ∧ isRole = false ∧ grant = true ∧ hasRoles = false
           then " WITH GRANT OPTION" else "")] := by
  intro db u h r hr privs roles dbn tbl tls g p isR hval hres
  by_cases hp : privs = []
  · rcases hval with hne | ⟨hroles, hhr⟩
    · exact absurd hp hne
    · subst hp hhr
      have hpos : 0 < roles.length := List.length_pos.mpr hroles
      have hrl : roles.length ≠ 0 := Nat.pos_iff_ne_zero.mp hpos
      simp only [CreateGrant, hres]
      simp [hroles, hpos, hrl, String.append_assoc]
  · have hpl : privs.length > 0 := List.length_pos.mpr hp
    simp only [CreateGrant, hres]
    by_cases hhr : hr = true <;> by_cases htls : tls = "" <;>
      by_cases hisR : isR = true <;> by_cases hg : g = true <;>
        simp [hp, hpl, hhr, htls, hisR, hg, String.append_assoc]

theorem createGrant_clause_witness :
    (CreateGrant (fun _ => none) "jdoe" "example.com" "" false ["SELECT"] []
        "d1" "" "NONE" true).1 =
      ["GRANT SELECT ON `d1`.* TO 'jdoe'@'example.com' REQUIRE NONE WITH GRANT OPTION"] := by
  have h := createGrant_clause_conditions (fun _ => none) "jdoe" "example.com"
    "" false ["SELECT"] [] "d1" "" "NONE" true "'jdoe'@'example.com'" false
    (Or.inl (by decide)) (by decide)
  rw [h]
  rfl

lemma strBeqComm (a b : String) : (a == b) = (b == a) := by
  by_cases h : a = b
  · subst h; rfl
  · rw [beq_eq_false_iff_ne.mpr h, beq_eq_false_iff_ne.mpr (Ne.symm h)]

lemma specKeyEq_refl (g : SubGrant) : specKeyEq g g = true := by
  simp [specKeyEq]

lemma specKeyEq_true_iff (a b : SubGrant) :
    specKeyEq a b = true ↔ scopeKey a = scopeKey b := by
  simp [specKeyEq, scopeKey, Prod.ext_iff]

lemma grantsKeyMatch_eq_specKeyEq (a b : SubGrant) :
    grantsKeyMatch a b = specKeyEq a b := by
  rw [grantsKeyMatch, specKeyEq, Bool.and_comm,
    strBeqComm (formatTableName b.table) (formatTableName a.table)]

lemma keysDistinct_eq {l : List SubGrant} (hd : keysDistinct l) {a b : SubGrant}
    (ha : a ∈ l) (hb : b ∈ l) (hk : scopeKey a = scopeKey b) : a = b := by
  induction l with
  | nil => cases ha
  | cons x xs ih =>
    cases hd with
    | cons hx hxs =>
      rcases List.mem_cons.mp ha with rfl | ha₁ <;>
        rcases List.mem_cons.mp hb with rfl | hb₁
      · rfl
      · exact absurd hk (hx _ hb₁)
      · exact absurd hk.symm (hx _ ha₁)
      · exact ih hxs ha₁ hb₁

lemma find?_key_self {new : List SubGrant} (hnew : keysDistinct new)
    {o : SubGrant} (ho : o ∈ new) :
    new.find? (fun n => specKeyEq o n) = some o := by
  induction new with
  | nil => cases ho
  | cons h t ih =>
    rcases List.mem_cons.mp ho with rfl | ho₁
    · exact List.find?_cons_of_pos _ (specKeyEq_refl o)
    · cases hnew with
      | cons hx hxs =>
        have hne : ¬ specKeyEq o h = true := by
          intro hcontra
          exact hx o ho₁ ((specKeyEq_true_iff o h).mp hcontra).symm
        rw [List.find?_cons_of_neg _ hne]
        exact ih hxs ho₁

lemma find?_filtered {old new : List SubGrant} (hold : keysDistinct old)
    {o : SubGrant} (ho : o ∈ old) (honot : o ∉ new) :
    ∀ news : List SubGrant, (∀ x ∈ news, x ∈ new) →
      (news.filter (fun g => !(old.contains g))).find? (fun n => specKeyEq o n) =
        news.find? (fun n => specKeyEq o n)
  | [], _ => rfl
  | h :: t, hsub => by
    by_cases hkey : specKeyEq o h = true
    · have hhold : h ∉ old := by
        intro hh
        have : o = h :=
          keysDistinct_eq hold ho hh ((specKeyEq_true_iff o h).mp hkey)
        exact honot (this ▸ hsub h (List.mem_cons_self h t))
      rw [List.filter_cons, if_pos (by simp [hhold])]
      rw [List.find?_cons_of_pos _ hkey, List.find?_cons_of_pos _ hkey]
    · rw [List.filter_cons]
      by_cases hin : h ∈ old
      · rw [if_neg (by simp [hin])]
        rw [List.find?_cons_of_neg _ hkey]
        exact find?_filtered hold ho honot t (fun x hx => hsub x (List.mem_cons_of_mem h hx))
      · rw [if_pos (by simp [hin])]
        rw [List.find?_cons_of_neg _ hkey, List.find?_cons_of_neg _ hkey]
        exact find?_filtered hold ho honot t (fun x hx => hsub x (List.mem_cons_of_mem h hx))

lemma any_filtered {old new : List SubGrant} (hnew : keysDistinct new)
    {n : SubGrant} (hn : n ∈ new) (hnnot : n ∉ old) :
    ∀ olds : List SubGrant, (∀ x ∈ olds, x ∈ old) →
      (olds.filter (fun g => !(new.contains g))).any (fun o => specKeyEq o n) =
        olds.any (fun o => specKeyEq o n)
  | [], _ => rfl
  | h :: t, hsub => by
    by_cases hkey : specKeyEq h n = true
    · have hhnew : h ∉ new := by
        intro hh
        have : h = n :=
          keysDistinct_eq hnew hh hn ((specKeyEq_true_iff h n).mp hkey)
        exact hnnot (this ▸ hsub h (List.mem_cons_self h t))
      rw [List.filter_cons, if_pos (by simp [hhnew])]
      simp [List.any_cons, hkey]
    · rw [List.filter_cons]
      have hrec := any_filtered hnew hn hnnot t
        (fun x hx => hsub x (List.mem_cons_of_mem h hx))
      by_cases hin : h ∈ new
      · rw [if_neg (by simp [hin])]
        simp only [List.any_cons, hkey]
        simp only [Bool.false_or]
        exact hrec
      · rw [if_pos (by simp [hin])]
        simp only [List.any_cons, hkey]
        simp only [Bool.false_or]
        exact hrec

lemma specSingleScopeRun_self (db : ExecOracle) (l : List String)
    (u d t : String) : specSingleScopeRun db l l u d t = ([], .ok ()) := by
  have hr : l.filter (fun v => !(l.contains v)) = [] :=
    List.filter_eq_nil_iff.mpr (fun a ha => by simp [ha])
  simp only [specSingleScopeRun]
  rw [hr]
  simp

lemma updatePrivileges_eq_spec (db : ExecOracle) (cur des : List String)
    (u d t : String) :
    updatePrivileges des cur db u d t = specSingleScopeRun db cur des u d t := rfl

lemma runUpdates_eq_specMultiOld (db : ExecOracle) (user : String)
    {old new : List SubGrant} (hold : keysDistinct old) (hnew : keysDistinct new) :
    ∀ olds : List SubGrant, (∀ x ∈ olds, x ∈ old) →
      runUpdates db user (new.filter (fun g => !(old.contains g)))
          (olds.filter (fun g => !(new.contains g))) =
        specMultiOld db user new olds
  | [], _ => rfl
  | o :: rest, hsub => by
    have hrec := runUpdates_eq_specMultiOld db user hold hnew rest
      (fun x hx => hsub x (List.mem_cons_of_mem o hx))
    by_cases hmem : o ∈ new
    · rw [List.filter_cons, if_neg (by simp [hmem])]
      rw [specMultiOld, find?_key_self hnew hmem]
      dsimp only
      rw [specSingleScopeRun_self]
      dsimp only
      simp only [List.nil_append]
      rw [hrec]
    · rw [List.filter_cons, if_pos (by simp [hmem])]
      simp only [runUpdates, specMultiOld, grantsKeyMatch_eq_specKeyEq]
      rw [find?_filtered hold (hsub o (List.mem_cons_self o rest)) hmem new
        (fun x hx => hx)]
      simp only [updatePrivileges_eq_spec]
      rw [hrec]

lemma runCreates_eq_specMultiNew (db : ExecOracle) (user : String)
    (old : List SubGrant) {new : List SubGrant} (hnew : keysDistinct new) :
    ∀ news : List SubGrant, (∀ x ∈ news, x ∈ new) →
      runCreates db user (old.filter (fun g => !(new.contains g)))
          (news.filter (fun g => !(old.contains g))) =
        specMultiNew db user old news
  | [], _ => rfl
  | n :: rest, hsub => by
    have hrec := runCreates_eq_specMultiNew db user old hnew rest
      (fun x hx => hsub x (List.mem_cons_of_mem n hx))
    by_cases hmem : n ∈ old
    · rw [List.filter_cons, if_neg (by simp [hmem])]
      rw [specMultiNew,
        if_pos (show (old.any fun o => specKeyEq o n) = true from
          List.any_eq_true.mpr ⟨n, hmem, specKeyEq_refl n⟩)]
      exact hrec
    · rw [List.filter_cons, if_pos (by simp [hmem])]
      simp only [runCreates, specMultiNew, grantsKeyMatch_eq_specKeyEq]
      rw [any_filtered hnew (hsub n (List.mem_cons_self n rest)) hmem old
        (fun x hx => hx)]
      simp only [updatePrivileges_eq_spec]
      rw [hrec]

/-- C2: in multi-scope reconciliation an old spec is matched to a new spec exactly when their formatted database and table identifiers are equal; matched pairs are reconciled by the single-scope diff, unmatched old specs are fully revoked (desired = empty), unmatched new specs are fully granted (current = empty), and unchanged specs cause no statement. Formally: when each collection has pairwise distinct formatted scope keys, `updatePrivilegesMulti` issues exactly the statements (and outcome) of the spec-level multi-scope reconciliation over the full collections. -/
theorem updateGrants_multi_matches_spec (db : ExecOracle) (user : String)
    (oldGrants newGrants : List SubGrant)
    (hold : keysDistinct oldGrants) (hnew : keysDistinct newGrants) :
    updatePrivilegesMulti db user oldGrants newGrants =
      specMultiScopeRun db user oldGrants newGrants := by
  rw [updatePrivilegesMulti, specMultiScopeRun]
  rw [runUpdates_eq_specMultiOld db user hold hnew oldGrants (fun x hx => hx)]
  rw [runCreates_eq_specMultiNew db user oldGrants hnew newGrants (fun x hx => hx)]

theorem updateGrants_multi_witness :
    updatePrivilegesMulti (fun _ => none) "'jdoe'@'example.com'"
        [⟨"*", "*", ["USAGE"], [], false⟩,
         ⟨"d1", "*", ["UPDATE", "SELECT"], [], false⟩]
        [⟨"*", "*", ["USAGE"], [], false⟩,
         ⟨"d1", "*", ["UPDATE", "SELECT", "DELETE"], [], false⟩] =
      specMultiScopeRun (fun _ => none) "'jdoe'@'example.com'"
        [⟨"*", "*", ["USAGE"], [], false⟩,
         ⟨"d1", "*", ["UPDATE", "SELECT"], [], false⟩]
        [⟨"*", "*", ["USAGE"], [], false⟩,
         ⟨"d1", "*", ["UPDATE", "SELECT", "DELETE"], [], false⟩] ∧
    updatePrivilegesMulti (fun _ => none) "'jdoe'@'example.com'"
        [⟨"*", "*", ["USAGE"], [], false⟩,
         ⟨"d1", "*", ["UPDATE", "SELECT"], [], false⟩]
        [⟨"*", "*", ["USAGE"], [], false⟩,
         ⟨"d1", "*", ["UPDATE", "SELECT", "DELETE"], [], false⟩] =
      (["GRANT DELETE ON `d1`.* TO 'jdoe'@'example.com'"], .ok ()) :=
  ⟨updateGrants_multi_matches_spec _ _ _ _
      (by decide) (by decide),
    by decide⟩

/-! Toolkit for the parser idempotence proof. -/

lemma all_not_mem {p : Char → Bool} {w : List Char}
    (hall : ∀ c ∈ w, p c = true) {x : Char} (hx : p x = false) : x ∉ w :=
  fun hmem => by rw [hall x hmem] at hx; cases hx

lemma upper_not_space {c : Char} (h : isUpperAZ c = true) : isSpaceChar c = false := by
  cases hsp : isSpaceChar c with
  | false => rfl
  | true =>
    exfalso
    have h4 : c = ' ' ∨ c = '\t' ∨ c = '\n' ∨ c = '\r' := by
      unfold isSpaceChar at hsp
      simpa [or_assoc] using hsp
    rcases h4 with rfl | rfl | rfl | rfl <;> revert h <;> decide

lemma takeWhile_app_not {p : Char → Bool} :
    ∀ (xs : List Char) {y : Char} (ys : List Char),
      (∀ c ∈ xs, p c = true) → p y = false →
      (xs ++ y :: ys).takeWhile p = xs ∧ (xs ++ y :: ys).dropWhile p = y :: ys
  | [], y, ys, _, hy => by
    simp [List.takeWhile_cons, List.dropWhile_cons, hy]
  | x :: xs, y, ys, hall, hy => by
    have hx := hall x (List.mem_cons_self x xs)
    have ih := takeWhile_app_not xs ys (fun c hc => hall c (List.mem_cons_of_mem x hc)) hy
    simp [List.takeWhile_cons, List.dropWhile_cons, hx, ih.1, ih.2]

lemma takeWhile_all {p : Char → Bool} :
    ∀ (xs : List Char), (∀ c ∈ xs, p c = true) →
      xs.takeWhile p = xs ∧ xs.dropWhile p = []
  | [], _ => by simp
  | x :: xs, hall => by
    have hx := hall x (List.mem_cons_self x xs)
    have ih := takeWhile_all xs (fun c hc => hall c (List.mem_cons_of_mem x hc))
    simp [List.takeWhile_cons, List.dropWhile_cons, hx, ih.1, ih.2]

lemma splitOnChar_not_mem {sep : Char} :
    ∀ (x : List Char), sep ∉ x → splitOnChar sep x = [x]
  | [], _ => rfl
  | c :: rest, h => by
    have hc : ¬ c = sep := fun e => h (e ▸ List.mem_cons_self c rest)
    have ih := splitOnChar_not_mem rest (fun m => h (List.mem_cons_of_mem c m))
    simp [splitOnChar, hc, ih]

lemma splitOnChar_app {sep : Char} :
    ∀ (x y : List Char), sep ∉ x →
      splitOnChar sep (x ++ sep :: y) = x :: splitOnChar sep y
  | [], y, _ => by simp [splitOnChar]
  | c :: x', y, h => by
    have hc : ¬ c = sep := fun e => h (e ▸ List.mem_cons_self c x')
    have ih := splitOnChar_app x' y (fun m => h (List.mem_cons_of_mem c m))
    simp [splitOnChar, hc, ih]

lemma removeFirstChar_app {t : Char} :
    ∀ (x y : List Char), t ∉ x → removeFirstChar t (x ++ t :: y) = x ++ y
  | [], y, _ => by simp [removeFirstChar]
  | c :: x', y, h => by
    have hc : ¬ c = t := fun e => h (e ▸ List.mem_cons_self c x')
    have ih := removeFirstChar_app x' y (fun m => h (List.mem_cons_of_mem c m))
    simp [removeFirstChar, hc, ih]

lemma trimSpace_no_edge_space (t : List Char)
    (h1 : ∀ c, t.head? = some c → isSpaceChar c = false)
    (h2 : ∀ c, t.getLast? = some c → isSpaceChar c = false) :
    trimSpace t = t := by
  cases t with
  | nil => rfl
  | cons c r =>
    have hc := h1 c rfl
    unfold trimSpace
    rw [List.dropWhile_cons, if_neg (by simp [hc])]
    cases hrev : (c :: r).reverse with
    | nil => exact absurd hrev (by simp)
    | cons d rr =>
      have hd : isSpaceChar d = false := by
        apply h2
        rw [← List.head?_reverse, hrev]
        rfl
      rw [List.dropWhile_cons, if_neg (by simp [hd]), ← hrev,
        List.reverse_reverse]

lemma trimSpace_upper (w : List Char) (hw : ∀ c ∈ w, isUpperAZ c = true) :
    trimSpace w = w := by
  apply trimSpace_no_edge_space
  · intro c hc
    exact upper_not_space (hw c (List.mem_of_mem_head? hc))
  · intro c hc
    exact upper_not_space (hw c (List.mem_of_mem_getLast? hc))

lemma trimSpace_upper_space (w : List Char) (hne : w ≠ [])
    (hw : ∀ c ∈ w, isUpperAZ c = true) :
    trimSpace (w ++ [' ']) = w := by
  cases w with
  | nil => exact absurd rfl hne
  | cons c r =>
    have hc : isSpaceChar c = false :=
      upper_not_space (hw c (List.mem_cons_self c r))
    unfold trimSpace
    rw [List.cons_append, List.dropWhile_cons, if_neg (by simp [hc])]
    rw [show (c :: (r ++ [' '])).reverse = ' ' :: (c :: r).reverse from by simp]
    rw [List.dropWhile_cons, if_pos (by simp [isSpaceChar])]
    cases hrev : (c :: r).reverse with
    | nil => exact absurd hrev (by simp)
    | cons d rr =>
      have hd : isSpaceChar d = false := by
        apply upper_not_space
        apply hw
        apply List.mem_of_mem_getLast?
        show (c :: r).getLast? = some d
        rw [← List.head?_reverse, hrev]
        rfl
      rw [List.dropWhile_cons, if_neg (by simp [hd]), ← hrev,
        List.reverse_reverse]

lemma intercalateCS_cons_cons (x y : List Char) (ys : List (List Char)) :
    List.intercalate [',', ' '] (x :: y :: ys) =
      x ++ ',' :: ' ' :: List.intercalate [',', ' '] (y :: ys) := by
  simp [List.intercalate, List.intersperse]

lemma splitCS_ne_nil (l : List Char) : splitCommaSpace l ≠ [] := by
  induction l using splitCommaSpace.induct with
  | case1 => simp [splitCommaSpace]
  | case2 rest ih => simp [splitCommaSpace]
  | case3 c rest h ih =>
    rw [splitCommaSpace.eq_3 c rest h]
    simp

lemma joinCS_splitCS (l : List Char) :
    joinCommaSpace (splitCommaSpace l) = l := by
  unfold joinCommaSpace
  induction l using splitCommaSpace.induct with
  | case1 => rfl
  | case2 rest ih =>
    rw [splitCommaSpace.eq_2]
    rcases hps : splitCommaSpace rest with _ | ⟨hd, t⟩
    · exact absurd hps (splitCS_ne_nil rest)
    · rw [← hps]
      rw [show List.intercalate [',', ' '] ([] :: splitCommaSpace rest) =
        [] ++ [',', ' '] ++ List.intercalate [',', ' '] (splitCommaSpace rest) from by
          rw [hps]; simp [List.intercalate, List.intersperse]]
      simpa using ih
  | case3 c rest h ih =>
    rw [splitCommaSpace.eq_3 c rest h]
    rcases hps : splitCommaSpace rest with _ | ⟨hd, t⟩
    · exact absurd hps (splitCS_ne_nil rest)
    · rw [hps] at ih
      cases t with
      | nil =>
        simp [List.intercalate] at ih ⊢
        simp [ih]
      | cons t1 ts =>
        simp only [List.headD, List.tail]
        rw [show List.intercalate [',', ' '] ((c :: hd) :: t1 :: ts) =
          (c :: hd) ++ [',', ' '] ++ List.intercalate [',', ' '] (t1 :: ts) from by
            simp [List.intercalate, List.intersperse]]
        rw [show List.intercalate [',', ' '] (hd :: t1 :: ts) =
          hd ++ [',', ' '] ++ List.intercalate [',', ' '] (t1 :: ts) from by
            simp [List.intercalate, List.intersperse]] at ih
        simp [← ih]

lemma splitCS_headD_prefix (l : List Char) :
    (splitCommaSpace l).headD [] <+: l := by
  induction l using splitCommaSpace.induct with
  | case1 => simp [splitCommaSpace]
  | case2 rest ih => simp [splitCommaSpace]
  | case3 c rest h ih =>
    rw [splitCommaSpace.eq_3 c rest h]
    simpa using ih

lemma splitCS_comps_noSep (l : List Char) :
    ∀ comp ∈ splitCommaSpace l, hasCS comp = false := by
  induction l using splitCommaSpace.induct with
  | case1 =>
    intro comp hc
    simp [splitCommaSpace] at hc
    subst hc
    rfl
  | case2 rest ih =>
    intro comp hc
    rw [splitCommaSpace.eq_2] at hc
    rcases List.mem_cons.mp hc with rfl | hc₁
    · rfl
    · exact ih comp hc₁
  | case3 c rest h ih =>
    intro comp hc
    rw [splitCommaSpace.eq_3 c rest h] at hc
    rcases hps : splitCommaSpace rest with _ | ⟨hd, t⟩
    · exact absurd hps (splitCS_ne_nil rest)
    · rw [hps] at hc
      simp only [List.headD, List.tail] at hc
      rcases List.mem_cons.mp hc with rfl | hc₁
      · cases hhd : hd with
        | nil => rfl
        | cons x hd' =>
          have hins : hasCS (x :: hd') = false := by
            rw [← hhd]
            exact ih hd (hps ▸ List.mem_cons_self hd t)
          have hpre : hd <+: rest := by
            have := splitCS_headD_prefix rest
            rw [hps] at this
            simpa using this
          rw [show hasCS (c :: x :: hd') = ((c == ',' && x == ' ') ||
            hasCS (x :: hd')) from rfl]
          rw [hins, Bool.or_false]
          by_cases hcc : c = ','
          · subst hcc
            have hx : ¬ x = ' ' := by
              intro hx
              subst hx
              obtain ⟨s, hs⟩ := hpre
              rw [hhd] at hs
              exact h (hd' ++ s) rfl hs.symm
            simp [hx]
          · simp [hcc]
      · exact ih comp (hps ▸ List.mem_cons_of_mem hd hc₁)

lemma splitCS_comps_chars (l : List Char) :
    ∀ comp ∈ splitCommaSpace l, ∀ c ∈ comp, c ∈ l := by
  induction l using splitCommaSpace.induct with
  | case1 =>
    intro comp hc
    simp [splitCommaSpace] at hc
    subst hc
    intro c hcc
    cases hcc
  | case2 rest ih =>
    intro comp hc c hcc
    rw [splitCommaSpace.eq_2] at hc
    rcases List.mem_cons.mp hc with rfl | hc₁
    · cases hcc
    · exact List.mem_cons_of_mem _ (List.mem_cons_of_mem _ (ih comp hc₁ c hcc))
  | case3 c0 rest h ih =>
    intro comp hc c hcc
    rw [splitCommaSpace.eq_3 c0 rest h] at hc
    rcases hps : splitCommaSpace rest with _ | ⟨hd, t⟩
    · exact absurd hps (splitCS_ne_nil rest)
    · rw [hps] at hc
      simp only [List.headD, List.tail] at hc
      rcases List.mem_cons.mp hc with rfl | hc₁
      · rcases List.mem_cons.mp hcc with rfl | hcc₁
        · exact List.mem_cons_self c rest
        · exact List.mem_cons_of_mem c0
            (ih hd (hps ▸ List.mem_cons_self hd t) c hcc₁)
      · exact List.mem_cons_of_mem c0
          (ih comp (hps ▸ List.mem_cons_of_mem hd hc₁) c hcc)

lemma hasCS_cons_false {x : Char} {a : List Char}
    (h : hasCS (x :: a) = false) : hasCS a = false := by
  cases a with
  | nil => rfl
  | cons y a' =>
    rw [show hasCS (x :: y :: a') = ((x == ',' && y == ' ') || hasCS (y :: a'))
      from rfl] at h
    exact (Bool.or_eq_false_iff.mp h).2

lemma splitCS_append_sep :
    ∀ (a rest : List Char), hasCS a = false →
      splitCommaSpace (a ++ ',' :: ' ' :: rest) = a :: splitCommaSpace rest
  | [], rest, _ => by
    rw [List.nil_append, splitCommaSpace.eq_2]
  | x :: a', rest, hno => by
    have hguard : ∀ r1 : List Char, x = ',' →
        a' ++ ',' :: ' ' :: rest = ' ' :: r1 → False := by
      intro r1 hx he
      cases a' with
      | nil =>
        rw [List.nil_append] at he
        cases he
      | cons y a'' =>
        rw [List.cons_append] at he
        cases he
        subst hx
        rw [show hasCS (',' :: ' ' :: a'') = ((',' == ',' && ' ' == ' ') ||
          hasCS (' ' :: a'')) from rfl] at hno
        simp at hno
    have ih := splitCS_append_sep a' rest (hasCS_cons_false hno)
    rw [List.cons_append, splitCommaSpace.eq_3 x _ hguard, ih]
    simp

lemma splitCS_of_noSep :
    ∀ a : List Char, hasCS a = false → splitCommaSpace a = [a]
  | [], _ => rfl
  | x :: a', hno => by
    have hguard : ∀ r1 : List Char, x = ',' → a' = ' ' :: r1 → False := by
      intro r1 hx he
      subst hx he
      rw [show hasCS (',' :: ' ' :: r1) = ((',' == ',' && ' ' == ' ') ||
        hasCS (' ' :: r1)) from rfl] at hno
      simp at hno
    have ih := splitCS_of_noSep a' (hasCS_cons_false hno)
    rw [splitCommaSpace.eq_3 x a' hguard, ih]
    simp

lemma splitCS_joinCS :
    ∀ comps : List (List Char), comps ≠ [] →
      (∀ c ∈ comps, hasCS c = false) →
      splitCommaSpace (joinCommaSpace comps) = comps
  | [], hne, _ => absurd rfl hne
  | [a], _, hall => by
    rw [show joinCommaSpace [a] = a from by
      simp [joinCommaSpace, List.intercalate]]
    exact splitCS_of_noSep a (hall a (List.mem_cons_self a []))
  | a :: b :: t, _, hall => by
    rw [show joinCommaSpace (a :: b :: t) =
      a ++ ',' :: ' ' :: joinCommaSpace (b :: t) from
        intercalateCS_cons_cons a b t]
    rw [splitCS_append_sep a _ (hall a (List.mem_cons_self a _))]
    rw [splitCS_joinCS (b :: t) (by simp)
      (fun c hc => hall c (List.mem_cons_of_mem a hc))]

lemma splitCS_ne_single_nil (l : List Char) (hne : l ≠ []) :
    splitCommaSpace l ≠ [[]] := by
  induction l using splitCommaSpace.induct with
  | case1 => exact absurd rfl hne
  | case2 rest ih =>
    rw [splitCommaSpace.eq_2]
    intro hcontra
    have : splitCommaSpace rest = [] := by
      injection hcontra with h1 h2
    exact splitCS_ne_nil rest this
  | case3 c rest h ih =>
    rw [splitCommaSpace.eq_3 c rest h]
    intro hcontra
    injection hcontra with h1 h2
    cases h1

lemma mem_joinCS {c : Char} :
    ∀ comps : List (List Char), c ∈ joinCommaSpace comps →
      (∃ comp ∈ comps, c ∈ comp) ∨ c = ',' ∨ c = ' '
  | [], hc => by simp [joinCommaSpace, List.intercalate] at hc
  | [a], hc => by
    rw [show joinCommaSpace [a] = a from by
      simp [joinCommaSpace, List.intercalate]] at hc
    exact Or.inl ⟨a, List.mem_cons_self a [], hc⟩
  | a :: b :: t, hc => by
    rw [show joinCommaSpace (a :: b :: t) =
      a ++ ',' :: ' ' :: joinCommaSpace (b :: t) from
        intercalateCS_cons_cons a b t] at hc
    rcases List.mem_append.mp hc with hca | hctl
    · exact Or.inl ⟨a, List.mem_cons_self a _, hca⟩
    · rcases List.mem_cons.mp hctl with rfl | hctl₁
      · exact Or.inr (Or.inl rfl)
      · rcases List.mem_cons.mp hctl₁ with rfl | hctl₂
        · exact Or.inr (Or.inr rfl)
        · rcases mem_joinCS (b :: t) hctl₂ with ⟨comp, hcm, hcc⟩ | hsep
          · exact Or.inl ⟨comp, List.mem_cons_of_mem a hcm, hcc⟩
          · exact Or.inr hsep

lemma matchAlt1Cols_spec {caps sp r2 : List Char} {t r : List Char}
    (h : matchAlt1Cols caps sp r2 = some (t, r)) :
    ∃ cols, cols ≠ [] ∧ (∀ c ∈ cols, isColChar c = true) ∧
      t = caps ++ sp ++ '(' :: (cols ++ [')']) ∧ r2 = cols ++ ')' :: r := by
  simp only [matchAlt1Cols] at h
  split at h
  · cases h
  · rename_i hne
    split at h
    · rename_i r4 heq
      injection h with h1
      injection h1 with ht hr
      subst ht hr
      refine ⟨r2.takeWhile isColChar, ?_, ?_, rfl, ?_⟩
      · intro he
        rw [he] at hne
        exact hne rfl
      · exact fun c hc => List.mem_takeWhile_imp hc
      · conv_lhs => rw [← List.takeWhile_append_dropWhile isColChar r2]
        rw [heq]
    · cases h

lemma matchAlt1_spec {l t r : List Char} (h : matchAlt1 l = some (t, r)) :
    Shape1 t ∧ l = t ++ r := by
  simp only [matchAlt1] at h
  split at h
  · cases h
  · rename_i hne
    have hcapsne : l.takeWhile isUpperAZ ≠ [] := by
      intro he
      rw [he] at hne
      exact hne rfl
    have hcaps : ∀ c ∈ l.takeWhile isUpperAZ, isUpperAZ c = true :=
      fun c hc => List.mem_takeWhile_imp hc
    split at h
    · rename_i r2 heq
      obtain ⟨cols, hcne, hcall, ht, hr2⟩ := matchAlt1Cols_spec h
      constructor
      · exact ⟨_, [], cols, ⟨hcapsne, hcaps⟩, Or.inl rfl, ⟨hcne, hcall⟩, ht⟩
      · rw [ht]
        conv_lhs => rw [← List.takeWhile_append_dropWhile isUpperAZ l]
        rw [heq, hr2]
        simp
    · rename_i r2 heq
      obtain ⟨cols, hcne, hcall, ht, hr2⟩ := matchAlt1Cols_spec h
      constructor
      · exact ⟨_, [' '], cols, ⟨hcapsne, hcaps⟩, Or.inr rfl, ⟨hcne, hcall⟩, ht⟩
      · rw [ht]
        conv_lhs => rw [← List.takeWhile_append_dropWhile isUpperAZ l]
        rw [heq, hr2]
        simp
    · cases h

lemma matchAlt2_spec {l t r : List Char} (h : matchAlt2 l = some (t, r)) :
    Shape2 t ∧ l = t ++ r := by
  simp only [matchAlt2] at h
  split at h
  · cases h
  · rename_i hne1
    split at h
    · rename_i r2 heq1
      split at h
      · cases h
      · rename_i hne2
        split at h
        · rename_i r4 heq2
          split at h
          · cases h
          · rename_i hne3
            injection h with h1
            injection h1 with ht hr
            subst ht hr
            have hw1ne : l.takeWhile isUpperAZ ≠ [] := by
              intro he; rw [he] at hne1; exact hne1 rfl
            have hw2ne : r2.takeWhile isUpperAZ ≠ [] := by
              intro he; rw [he] at hne2; exact hne2 rfl
            have hw3ne : r4.takeWhile isUpperAZ ≠ [] := by
              intro he; rw [he] at hne3; exact hne3 rfl
            constructor
            · exact ⟨_, _, _, ⟨hw1ne, fun c hc => List.mem_takeWhile_imp hc⟩,
                ⟨hw2ne, fun c hc => List.mem_takeWhile_imp hc⟩,
                ⟨hw3ne, fun c hc => List.mem_takeWhile_imp hc⟩, rfl⟩
            · conv_lhs => rw [← List.takeWhile_append_dropWhile isUpperAZ l]
              rw [heq1]
              conv_lhs =>
                rw [show r2 = r2.takeWhile isUpperAZ ++ r2.dropWhile isUpperAZ
                  from (List.takeWhile_append_dropWhile isUpperAZ r2).symm]
              rw [heq2]
              conv_lhs =>
                rw [show r4 = r4.takeWhile isUpperAZ ++ r4.dropWhile isUpperAZ
                  from (List.takeWhile_append_dropWhile isUpperAZ r4).symm]
              simp
        · cases h
    · cases h

lemma matchAlt3_spec {l t r : List Char} (h : matchAlt3 l = some (t, r)) :
    Shape3 t ∧ l = t ++ r := by
  simp only [matchAlt3] at h
  split at h
  · cases h
  · rename_i hne1
    split at h
    · rename_i r2 heq1
      split at h
      · cases h
      · rename_i hne2
        injection h with h1
        injection h1 with ht hr
        subst ht hr
        have hw1ne : l.takeWhile isUpperAZ ≠ [] := by
          intro he; rw [he] at hne1; exact hne1 rfl
        have hw2ne : r2.takeWhile isUpperAZ ≠ [] := by
          intro he; rw [he] at hne2; exact hne2 rfl
        constructor
        · exact ⟨_, _, ⟨hw1ne, fun c hc => List.mem_takeWhile_imp hc⟩,
            ⟨hw2ne, fun c hc => List.mem_takeWhile_imp hc⟩, rfl⟩
        · conv_lhs => rw [← List.takeWhile_append_dropWhile isUpperAZ l]
          rw [heq1]
          conv_lhs =>
            rw [show r2 = r2.takeWhile isUpperAZ ++ r2.dropWhile isUpperAZ
              from (List.takeWhile_append_dropWhile isUpperAZ r2).symm]
          simp
    · cases h

lemma matchAlt4_spec {l t r : List Char} (h : matchAlt4 l = some (t, r)) :
    Shape4 t ∧ l = t ++ r := by
  simp only [matchAlt4] at h
  split at h
  · cases h
  · rename_i hne1
    injection h with h1
    injection h1 with ht hr
    subst ht hr
    have hw1ne : l.takeWhile isUpperAZ ≠ [] := by
      intro he; rw [he] at hne1; exact hne1 rfl
    refine ⟨⟨hw1ne, fun c hc => List.mem_takeWhile_imp hc⟩, ?_⟩
    exact (List.takeWhile_append_dropWhile isUpperAZ l).symm

lemma shape_ne_nil {t : List Char} (h : TokenShape t) : t ≠ [] := by
  rcases h with ⟨caps, sp, cols, hc, _, _, ht⟩ | ⟨w1, w2, w3, hw1, _, _, ht⟩ |
    ⟨w1, w2, hw1, _, ht⟩ | hw
  · subst ht
    rcases hc with ⟨hne, _⟩
    cases hcaps : caps with
    | nil => exact absurd hcaps hne
    | cons a as => simp [hcaps]
  · subst ht
    rcases hw1 with ⟨hne, _⟩
    cases hcaps : w1 with
    | nil => exact absurd hcaps hne
    | cons a as => simp [hcaps]
  · subst ht
    rcases hw1 with ⟨hne, _⟩
    cases hcaps : w1 with
    | nil => exact absurd hcaps hne
    | cons a as => simp [hcaps]
  · exact hw.1

lemma matchToken_spec {l t r : List Char} (h : matchToken l = some (t, r)) :
    TokenShape t ∧ l = t ++ r ∧ t ≠ [] := by
  simp only [matchToken] at h
  split at h
  · rename_i p h1
    injection h with h2
    subst h2
    obtain ⟨hs, hl⟩ := matchAlt1_spec h1
    exact ⟨Or.inl hs, hl, shape_ne_nil (Or.inl hs)⟩
  · rename_i h1
    split at h
    · rename_i p h2
      injection h with h3
      subst h3
      obtain ⟨hs, hl⟩ := matchAlt2_spec h2
      exact ⟨Or.inr (Or.inl hs), hl, shape_ne_nil (Or.inr (Or.inl hs))⟩
    · rename_i h2
      split at h
      · rename_i p h3
        injection h with h4
        subst h4
        obtain ⟨hs, hl⟩ := matchAlt3_spec h3
        exact ⟨Or.inr (Or.inr (Or.inl hs)), hl,
          shape_ne_nil (Or.inr (Or.inr (Or.inl hs)))⟩
      · obtain ⟨hs, hl⟩ := matchAlt4_spec h
        exact ⟨Or.inr (Or.inr (Or.inr hs)), hl,
          shape_ne_nil (Or.inr (Or.inr (Or.inr hs)))⟩

lemma tokenizeGo_fuel :
    ∀ (f : Nat) (l : List Char), l.length ≤ f →
      tokenizeGo f l = tokenizeGo l.length l
  | 0, l, hf => by
    have : l = [] := List.eq_nil_of_length_eq_zero (Nat.le_zero.mp hf)
    subst this
    rfl
  | f + 1, [], _ => rfl
  | f + 1, c :: rest, hf => by
    rw [tokenizeGo, show (c :: rest).length = rest.length + 1 from rfl,
      tokenizeGo]
    cases hm : matchToken (c :: rest) with
    | none =>
      have hr : rest.length ≤ f := Nat.lt_succ_iff.mp hf
      rw [tokenizeGo_fuel f rest hr,
        tokenizeGo_fuel rest.length rest (Nat.le_refl _)]
    | some tr =>
      obtain ⟨t, r⟩ := tr
      obtain ⟨_, hl, htne⟩ := matchToken_spec hm
      have hrlen : r.length ≤ rest.length := by
        have : (c :: rest).length = t.length + r.length := by
          rw [hl, List.length_append]
        have htpos : 0 < t.length := List.length_pos.mpr htne
        simp at this
        omega
      dsimp only
      rw [tokenizeGo_fuel f r (Nat.le_trans hrlen (Nat.lt_succ_iff.mp hf)),
        tokenizeGo_fuel rest.length r hrlen]

lemma findAllTokens_cons_some {c : Char} {rest t r : List Char}
    (h : matchToken (c :: rest) = some (t, r)) :
    findAllTokens (c :: rest) = t :: findAllTokens r := by
  obtain ⟨_, hl, htne⟩ := matchToken_spec h
  have hrlen : r.length ≤ rest.length := by
    have h1 : (c :: rest).length = t.length + r.length := by
      rw [hl, List.length_append]
    have htpos : 0 < t.length := List.length_pos.mpr htne
    simp at h1
    omega
  unfold findAllTokens
  rw [show (c :: rest).length = rest.length + 1 from rfl, tokenizeGo, h]
  dsimp only
  rw [tokenizeGo_fuel rest.length r hrlen]

lemma findAllTokens_cons_none {c : Char} {rest : List Char}
    (h : matchToken (c :: rest) = none) :
    findAllTokens (c :: rest) = findAllTokens rest := by
  unfold findAllTokens
  rw [show (c :: rest).length = rest.length + 1 from rfl, tokenizeGo, h]

lemma findAllTokens_shapes :
    ∀ (fuel : Nat) (l : List Char), ∀ t ∈ tokenizeGo fuel l, TokenShape t
  | 0, l, t, ht => by cases ht
  | f + 1, [], t, ht => by cases ht
  | f + 1, c :: rest, t, ht => by
    rw [tokenizeGo] at ht
    cases hm : matchToken (c :: rest) with
    | none =>
      rw [hm] at ht
      exact findAllTokens_shapes f rest t ht
    | some tr =>
      obtain ⟨t0, r⟩ := tr
      rw [hm] at ht
      rcases List.mem_cons.mp ht with rfl | ht₁
      · exact (matchToken_spec hm).1
      · exact findAllTokens_shapes f r t ht₁

lemma contains_eq_true_of_mem {t : List Char} {x : Char} (h : x ∈ t) :
    t.contains x = true :=
  List.elem_iff.mpr h

lemma contains_eq_false_of_not_mem {t : List Char} {x : Char} (h : x ∉ t) :
    t.contains x = false := by
  cases hc : t.contains x with
  | false => rfl
  | true => exact absurd (List.elem_iff.mp hc) h

lemma transformTok_shape1 {caps sp cols : List Char}
    (hcaps : upperWord caps) (hsp : sp = [] ∨ sp = [' '])
    (hcols : colsOK cols) :
    transformTok (caps ++ sp ++ '(' :: (cols ++ [')'])) =
      caps ++ ' ' :: '(' ::
        (joinCommaSpace (sortStrings (splitCommaSpace cols)) ++ [')']) := by
  have hnp1 : '(' ∉ caps ++ sp := by
    intro hm
    rcases List.mem_append.mp hm with hm1 | hm2
    · exact absurd (hcaps.2 _ hm1) (by decide)
    · rcases hsp with rfl | rfl
      · cases hm2
      · rcases List.mem_cons.mp hm2 with he | hf
        · cases he
        · cases hf
  have hnp2 : '(' ∉ cols ++ [')'] := by
    intro hm
    rcases List.mem_append.mp hm with hm1 | hm2
    · exact absurd (hcols.2 _ hm1) (by decide)
    · rcases List.mem_cons.mp hm2 with he | hf
      · cases he
      · cases hf
  have hmem : '(' ∈ caps ++ sp ++ '(' :: (cols ++ [')']) := by
    simp
  have hsplit : splitOnChar '(' (caps ++ sp ++ '(' :: (cols ++ [')'])) =
      [caps ++ sp, cols ++ [')']] := by
    rw [show caps ++ sp ++ '(' :: (cols ++ [')']) =
      (caps ++ sp) ++ '(' :: (cols ++ [')']) from by simp]
    rw [splitOnChar_app _ _ hnp1, splitOnChar_not_mem _ hnp2]
  have hrp : ')' ∉ cols := all_not_mem hcols.2 (by decide)
  have hrm : removeFirstChar ')' (cols ++ [')']) = cols := by
    have := removeFirstChar_app (t := ')') cols [] hrp
    simpa using this
  have htrim : trimSpace (caps ++ sp) = caps := by
    rcases hsp with rfl | rfl
    · rw [List.append_nil]
      exact trimSpace_upper caps hcaps.2
    · exact trimSpace_upper_space caps hcaps.1 hcaps.2
  simp only [transformTok, contains_eq_true_of_mem hmem, if_true, hsplit]
  simp only [List.headD, List.drop, hrm, htrim]

lemma shape234_chars {t : List Char} (h : Shape2 t ∨ Shape3 t ∨ Shape4 t) :
    ∀ c ∈ t, isUpperAZ c = true ∨ c = ' ' := by
  rcases h with ⟨w1, w2, w3, hw1, hw2, hw3, ht⟩ | ⟨w1, w2, hw1, hw2, ht⟩ | hw
  · subst ht
    intro c hc
    rcases List.mem_append.mp hc with h1 | h2
    · exact Or.inl (hw1.2 _ h1)
    · rcases List.mem_cons.mp h2 with rfl | h3
      · exact Or.inr rfl
      · rcases List.mem_append.mp h3 with h4 | h5
        · exact Or.inl (hw2.2 _ h4)
        · rcases List.mem_cons.mp h5 with rfl | h6
          · exact Or.inr rfl
          · exact Or.inl (hw3.2 _ h6)
  · subst ht
    intro c hc
    rcases List.mem_append.mp hc with h1 | h2
    · exact Or.inl (hw1.2 _ h1)
    · rcases List.mem_cons.mp h2 with rfl | h3
      · exact Or.inr rfl
      · exact Or.inl (hw2.2 _ h3)
  · exact fun c hc => Or.inl (hw.2 _ hc)

lemma shape234_head {t : List Char} (h : Shape2 t ∨ Shape3 t ∨ Shape4 t) :
    ∀ c, t.head? = some c → isUpperAZ c = true := by
  rcases h with ⟨w1, w2, w3, hw1, hw2, hw3, ht⟩ | ⟨w1, w2, hw1, hw2, ht⟩ | hw
  · subst ht
    intro c hc
    cases hw : w1 with
    | nil => exact absurd hw hw1.1
    | cons a as =>
      rw [hw] at hc
      rw [show ((a :: as) ++ ' ' :: (w2 ++ ' ' :: w3)).head? = some a from rfl]
        at hc
      injection hc with hc1
      subst hc1
      exact hw1.2 a (hw ▸ List.mem_cons_self a as)
  · subst ht
    intro c hc
    cases hw : w1 with
    | nil => exact absurd hw hw1.1
    | cons a as =>
      rw [hw] at hc
      rw [show ((a :: as) ++ ' ' :: w2).head? = some a from rfl] at hc
      injection hc with hc1
      subst hc1
      exact hw1.2 a (hw ▸ List.mem_cons_self a as)
  · intro c hc
    exact hw.2 c (List.mem_of_mem_head? hc)

lemma shape234_last {t : List Char} (h : Shape2 t ∨ Shape3 t ∨ Shape4 t) :
    ∀ c, t.getLast? = some c → isUpperAZ c = true := by
  have hch := shape234_chars h
  rcases h with ⟨w1, w2, w3, hw1, hw2, hw3, ht⟩ | ⟨w1, w2, hw1, hw2, ht⟩ | hw
  · subst ht
    intro c hc
    have hlast : (w1 ++ ' ' :: (w2 ++ ' ' :: w3)).getLast? = w3.getLast? := by
      rw [List.getLast?_append_of_ne_nil _ (by simp)]
      rw [show ' ' :: (w2 ++ ' ' :: w3) = (' ' :: w2) ++ ' ' :: w3 from by simp]
      rw [List.getLast?_append_of_ne_nil _ (by simp)]
      rw [show (' ' :: w3 : List Char) = [' '] ++ w3 from rfl]
      rw [List.getLast?_append_of_ne_nil _ hw3.1]
    rw [hlast] at hc
    exact hw3.2 c (List.mem_of_mem_getLast? hc)
  · subst ht
    intro c hc
    have hlast : (w1 ++ ' ' :: w2).getLast? = w2.getLast? := by
      rw [List.getLast?_append_of_ne_nil _ (by simp)]
      rw [show (' ' :: w2 : List Char) = [' '] ++ w2 from rfl]
      rw [List.getLast?_append_of_ne_nil _ hw2.1]
    rw [hlast] at hc
    exact hw2.2 c (List.mem_of_mem_getLast? hc)
  · intro c hc
    exact hw.2 c (List.mem_of_mem_getLast? hc)

lemma transformTok_shape234 {t : List Char}
    (h : Shape2 t ∨ Shape3 t ∨ Shape4 t) : transformTok t = t := by
  have hnp : '(' ∉ t := by
    intro hm
    rcases shape234_chars h '(' hm with hu | hsp
    · exact absurd hu (by decide)
    · cases hsp
  rw [transformTok, if_neg (by rw [contains_eq_false_of_not_mem hnp]; simp)]
  apply trimSpace_no_edge_space
  · exact fun c hc => upper_not_space (shape234_head h c hc)
  · exact fun c hc => upper_not_space (shape234_last h c hc)

lemma transformTok_canon_fix {t : List Char} (h : CanonTok t) :
    transformTok t = t := by
  rcases h with ⟨caps, cols, hcaps, hcols, hsorted, ht⟩ | h2
  · subst ht
    rw [show caps ++ ' ' :: '(' :: (cols ++ [')']) =
      caps ++ [' '] ++ '(' :: (cols ++ [')']) from by simp]
    rw [transformTok_shape1 hcaps (Or.inr rfl) hcols]
    rw [hsorted, joinCS_splitCS]
    simp
  · exact transformTok_shape234 h2

lemma transformTok_canon {t : List Char} (h : TokenShape t) :
    CanonTok (transformTok t) := by
  rcases h with ⟨caps, sp, cols, hcaps, hsp, hcols, ht⟩ | h2
  · subst ht
    rw [transformTok_shape1 hcaps hsp hcols]
    left
    have hperm : (sortStrings (splitCommaSpace cols)).Perm (splitCommaSpace cols) :=
      List.perm_insertionSort _ _
    have hsorted : (sortStrings (splitCommaSpace cols)).Sorted (· ≤ ·) :=
      List.sorted_insertionSort _ _
    have hnosep : ∀ comp ∈ sortStrings (splitCommaSpace cols), hasCS comp = false :=
      fun comp hcm =>
        splitCS_comps_noSep cols comp (hperm.mem_iff.mp hcm)
    have hsne : sortStrings (splitCommaSpace cols) ≠ [] := by
      intro he
      rw [he] at hperm
      exact splitCS_ne_nil cols (List.Perm.eq_nil hperm.symm)
    refine ⟨caps, joinCommaSpace (sortStrings (splitCommaSpace cols)),
      hcaps, ⟨?_, ?_⟩, ?_, rfl⟩
    · cases hs : sortStrings (splitCommaSpace cols) with
      | nil => exact absurd hs hsne
      | cons x xs =>
        cases xs with
        | nil =>
          rw [hs] at hperm
          have hsingle : splitCommaSpace cols = [x] :=
            (List.perm_singleton.mp hperm.symm)
          have hxne : x ≠ [] := by
            intro he
            subst he
            exact splitCS_ne_single_nil cols hcols.1 hsingle
          rw [show joinCommaSpace [x] = x from by
            simp [joinCommaSpace, List.intercalate]]
          exact hxne
        | cons y ys =>
          rw [show joinCommaSpace (x :: y :: ys) =
            x ++ ',' :: ' ' :: joinCommaSpace (y :: ys) from
              intercalateCS_cons_cons x y ys]
          simp
    · intro c hc
      rcases mem_joinCS _ hc with ⟨comp, hcm, hcc⟩ | hcs
      · exact hcols.2 c
          (splitCS_comps_chars cols comp (hperm.mem_iff.mp hcm) c hcc)
      · rcases hcs with rfl | rfl <;> decide
    · rw [splitCS_joinCS _ hsne hnosep]
      exact List.Sorted.insertionSort_eq hsorted
  · rw [transformTok_shape234 h2]
    exact Or.inr h2

lemma isEmpty_false_of_ne_nil {α : Type} {l : List α} (h : l ≠ []) :
    l.isEmpty = false := by
  cases l with
  | nil => exact absurd rfl h
  | cons a as => rfl

lemma take_upper_sep (w r : List Char) (hw : ∀ c ∈ w, isUpperAZ c = true)
    (hr : sepStart r) :
    (w ++ r).takeWhile isUpperAZ = w ∧ (w ++ r).dropWhile isUpperAZ = r := by
  rcases hr with rfl | ⟨rr, rfl⟩
  · rw [List.append_nil]
    exact takeWhile_all w hw
  · exact takeWhile_app_not w rr hw (by decide)

lemma matchAlt1_canonS1 (caps cols r : List Char) (hcaps : upperWord caps)
    (hcols : colsOK cols) :
    matchAlt1 (caps ++ ' ' :: '(' :: (cols ++ ')' :: r)) =
      some (caps ++ ' ' :: '(' :: (cols ++ [')']), r) := by
  have h1 := takeWhile_app_not (p := isUpperAZ) (y := ' ') caps
    ('(' :: (cols ++ ')' :: r)) hcaps.2 (by decide)
  have h2 := takeWhile_app_not (p := isColChar) (y := ')') cols r
    hcols.2 (by decide)
  simp only [matchAlt1, h1.1, h1.2, isEmpty_false_of_ne_nil hcaps.1,
    Bool.false_eq_true, if_false, matchAlt1Cols, h2.1, h2.2,
    isEmpty_false_of_ne_nil hcols.1]
  simp

lemma matchToken_canonS1 (caps cols r : List Char) (hcaps : upperWord caps)
    (hcols : colsOK cols) :
    matchToken ((caps ++ ' ' :: '(' :: (cols ++ [')'])) ++ r) =
      some (caps ++ ' ' :: '(' :: (cols ++ [')']), r) := by
  have heq : (caps ++ ' ' :: '(' :: (cols ++ [')'])) ++ r =
      caps ++ ' ' :: '(' :: (cols ++ ')' :: r) := by simp
  rw [heq, matchToken, matchAlt1_canonS1 caps cols r hcaps hcols]

lemma matchAlt1_shape4 (w r : List Char) (hw : upperWord w) (hr : sepStart r) :
    matchAlt1 (w ++ r) = none := by
  have h1 := take_upper_sep w r hw.2 hr
  simp only [matchAlt1, h1.1, h1.2, isEmpty_false_of_ne_nil hw.1,
    Bool.false_eq_true, if_false]
  rcases hr with rfl | ⟨rr, rfl⟩ <;> rfl

lemma matchAlt2_shape4 (w r : List Char) (hw : upperWord w) (hr : sepStart r) :
    matchAlt2 (w ++ r) = none := by
  have h1 := take_upper_sep w r hw.2 hr
  simp only [matchAlt2, h1.1, h1.2, isEmpty_false_of_ne_nil hw.1,
    Bool.false_eq_true, if_false]
  rcases hr with rfl | ⟨rr, rfl⟩ <;> rfl

lemma matchAlt3_shape4 (w r : List Char) (hw : upperWord w) (hr : sepStart r) :
    matchAlt3 (w ++ r) = none := by
  have h1 := take_upper_sep w r hw.2 hr
  simp only [matchAlt3, h1.1, h1.2, isEmpty_false_of_ne_nil hw.1,
    Bool.false_eq_true, if_false]
  rcases hr with rfl | ⟨rr, rfl⟩ <;> rfl

lemma matchToken_shape4 (w r : List Char) (hw : upperWord w) (hr : sepStart r) :
    matchToken (w ++ r) = some (w, r) := by
  have h1 := take_upper_sep w r hw.2 hr
  rw [matchToken, matchAlt1_shape4 w r hw hr, matchAlt2_shape4 w r hw hr,
    matchAlt3_shape4 w r hw hr]
  simp only [matchAlt4, h1.1, h1.2, isEmpty_false_of_ne_nil hw.1,
    Bool.false_eq_true, if_false]

lemma matchAlt1_wordSpace (w1 rest : List Char) (hw1 : upperWord w1)
    (hrest : ∀ c, rest.head? = some c → isUpperAZ c = true) :
    matchAlt1 (w1 ++ ' ' :: rest) = none := by
  have h1 := takeWhile_app_not (p := isUpperAZ) (y := ' ') w1 rest
    hw1.2 (by decide)
  simp only [matchAlt1, h1.1, h1.2, isEmpty_false_of_ne_nil hw1.1,
    Bool.false_eq_true, if_false]
  cases rest with
  | nil => rfl
  | cons a rest' =>
    have ha := hrest a rfl
    split
    · rename_i r2 heq
      exact absurd heq (by simp)
    · rename_i r2 heq
      injection heq with g1 g2
      injection g2 with g3 g4
      subst g3
      exact absurd ha (by decide)
    · rfl

lemma matchAlt3_shape3 (w1 w2 r : List Char) (hw1 : upperWord w1)
    (hw2 : upperWord w2) (hr : sepStart r) :
    matchAlt3 (w1 ++ ' ' :: (w2 ++ r)) = some (w1 ++ ' ' :: w2, r) := by
  have h1 := takeWhile_app_not (p := isUpperAZ) (y := ' ') w1 (w2 ++ r)
    hw1.2 (by decide)
  have h2 := take_upper_sep w2 r hw2.2 hr
  simp only [matchAlt3, h1.1, h1.2, isEmpty_false_of_ne_nil hw1.1,
    Bool.false_eq_true, if_false, h2.1, h2.2, isEmpty_false_of_ne_nil hw2.1]

lemma matchAlt2_shape3 (w1 w2 r : List Char) (hw1 : upperWord w1)
    (hw2 : upperWord w2) (hr : sepStart r) :
    matchAlt2 (w1 ++ ' ' :: (w2 ++ r)) = none := by
  have h1 := takeWhile_app_not (p := isUpperAZ) (y := ' ') w1 (w2 ++ r)
    hw1.2 (by decide)
  have h2 := take_upper_sep w2 r hw2.2 hr
  simp only [matchAlt2, h1.1, h1.2, isEmpty_false_of_ne_nil hw1.1,
    Bool.false_eq_true, if_false, h2.1, h2.2, isEmpty_false_of_ne_nil hw2.1]
  rcases hr with rfl | ⟨rr, rfl⟩ <;> rfl

lemma matchToken_shape3 (w1 w2 r : List Char) (hw1 : upperWord w1)
    (hw2 : upperWord w2) (hr : sepStart r) :
    matchToken ((w1 ++ ' ' :: w2) ++ r) = some (w1 ++ ' ' :: w2, r) := by
  have heq : (w1 ++ ' ' :: w2) ++ r = w1 ++ ' ' :: (w2 ++ r) := by simp
  have hh : ∀ c, (w2 ++ r).head? = some c → isUpperAZ c = true := by
    intro c hc
    cases hw2c : w2 with
    | nil => exact absurd hw2c hw2.1
    | cons a w2' =>
      rw [hw2c] at hc
      rw [show ((a :: w2') ++ r).head? = some a from rfl] at hc
      injection hc with hc1
      subst hc1
      exact hw2.2 a (hw2c ▸ List.mem_cons_self a w2')
  rw [heq, matchToken, matchAlt1_wordSpace w1 (w2 ++ r) hw1 hh,
    matchAlt2_shape3 w1 w2 r hw1 hw2 hr,
    matchAlt3_shape3 w1 w2 r hw1 hw2 hr]

lemma matchAlt2_shape2 (w1 w2 w3 r : List Char) (hw1 : upperWord w1)
    (hw2 : upperWord w2) (hw3 : upperWord w3) (hr : sepStart r) :
    matchAlt2 (w1 ++ ' ' :: (w2 ++ ' ' :: (w3 ++ r))) =
      some (w1 ++ ' ' :: (w2 ++ ' ' :: w3), r) := by
  have h1 := takeWhile_app_not (p := isUpperAZ) (y := ' ') w1
    (w2 ++ ' ' :: (w3 ++ r)) hw1.2 (by decide)
  have h2 := takeWhile_app_not (p := isUpperAZ) (y := ' ') w2
    (w3 ++ r) hw2.2 (by decide)
  have h3 := take_upper_sep w3 r hw3.2 hr
  simp only [matchAlt2, h1.1, h1.2, isEmpty_false_of_ne_nil hw1.1,
    Bool.false_eq_true, if_false, h2.1, h2.2, isEmpty_false_of_ne_nil hw2.1,
    h3.1, h3.2, isEmpty_false_of_ne_nil hw3.1]

lemma matchToken_shape2 (w1 w2 w3 r : List Char) (hw1 : upperWord w1)
    (hw2 : upperWord w2) (hw3 : upperWord w3) (hr : sepStart r) :
    matchToken ((w1 ++ ' ' :: (w2 ++ ' ' :: w3)) ++ r) =
      some (w1 ++ ' ' :: (w2 ++ ' ' :: w3), r) := by
  have heq : (w1 ++ ' ' :: (w2 ++ ' ' :: w3)) ++ r =
      w1 ++ ' ' :: (w2 ++ ' ' :: (w3 ++ r)) := by simp
  have hh : ∀ c, (w2 ++ ' ' :: (w3 ++ r)).head? = some c →
      isUpperAZ c = true := by
    intro c hc
    cases hw2c : w2 with
    | nil => exact absurd hw2c hw2.1
    | cons a w2' =>
      rw [hw2c] at hc
      rw [show ((a :: w2') ++ ' ' :: (w3 ++ r)).head? = some a from rfl] at hc
      injection hc with hc1
      subst hc1
      exact hw2.2 a (hw2c ▸ List.mem_cons_self a w2')
  rw [heq, matchToken, matchAlt1_wordSpace w1 _ hw1 hh,
    matchAlt2_shape2 w1 w2 w3 r hw1 hw2 hw3 hr]

lemma canonTok_ne_nil {t : List Char} (h : CanonTok t) : t ≠ [] := by
  rcases h with ⟨caps, cols, hcaps, hcols, _, ht⟩ | h2
  · subst ht
    cases hcapsc : caps with
    | nil => exact absurd hcapsc hcaps.1
    | cons a as => simp [hcapsc]
  · exact shape_ne_nil (Or.inr h2)

lemma matchToken_canonTok {t : List Char} (r : List Char) (h : CanonTok t)
    (hr : sepStart r) :
    matchToken (t ++ r) = some (t, r) := by
  rcases h with ⟨caps, cols, hcaps, hcols, _, ht⟩ | ⟨w1, w2, w3, hw1, hw2, hw3, ht⟩ |
    ⟨w1, w2, hw1, hw2, ht⟩ | hw
  · subst ht
    exact matchToken_canonS1 caps cols r hcaps hcols
  · subst ht
    exact matchToken_shape2 w1 w2 w3 r hw1 hw2 hw3 hr
  · subst ht
    exact matchToken_shape3 w1 w2 r hw1 hw2 hr
  · exact matchToken_shape4 t r hw hr

lemma matchToken_not_upper_head {c : Char} (xs : List Char)
    (hc : isUpperAZ c = false) : matchToken (c :: xs) = none := by
  have ht : (c :: xs).takeWhile isUpperAZ = [] := by
    rw [List.takeWhile_cons, if_neg (by simp [hc])]
  simp only [matchToken, matchAlt1, matchAlt2, matchAlt3, matchAlt4, ht]
  rfl

lemma findAllTokens_skip_sep (rest : List Char) :
    findAllTokens (',' :: ' ' :: rest) = findAllTokens rest := by
  rw [findAllTokens_cons_none (matchToken_not_upper_head _ (by decide)),
    findAllTokens_cons_none (matchToken_not_upper_head _ (by decide))]

lemma findAllTokens_canonList :
    ∀ cts : List (List Char), (∀ t ∈ cts, CanonTok t) →
      findAllTokens (List.intercalate [',', ' '] cts) = cts
  | [], _ => rfl
  | [t], hall => by
    have hc := hall t (List.mem_cons_self t [])
    have hm : matchToken t = some (t, []) := by
      have := matchToken_canonTok [] hc (Or.inl rfl)
      rwa [List.append_nil] at this
    rw [show List.intercalate [',', ' '] [t] = t from by
      simp [List.intercalate]]
    cases htc : t with
    | nil => exact absurd htc (canonTok_ne_nil hc)
    | cons c t' =>
      rw [htc] at hm
      rw [findAllTokens_cons_some hm]
      rfl
  | t :: t2 :: ts, hall => by
    have hc := hall t (List.mem_cons_self t _)
    have hrest := findAllTokens_canonList (t2 :: ts)
      (fun x hx => hall x (List.mem_cons_of_mem t hx))
    have hm : matchToken (t ++ ',' :: ' ' :: List.intercalate [',', ' '] (t2 :: ts)) =
        some (t, ',' :: ' ' :: List.intercalate [',', ' '] (t2 :: ts)) :=
      matchToken_canonTok _ hc (Or.inr ⟨_, rfl⟩)
    rw [intercalateCS_cons_cons t t2 ts]
    cases htc : t with
    | nil => exact absurd htc (canonTok_ne_nil hc)
    | cons c t' =>
      rw [htc] at hm
      rw [show (c :: t') ++ ',' :: ' ' :: List.intercalate [',', ' '] (t2 :: ts) =
        c :: (t' ++ ',' :: ' ' :: List.intercalate [',', ' '] (t2 :: ts))
          from rfl] at hm ⊢
      rw [findAllTokens_cons_some hm]
      rw [findAllTokens_skip_sep, hrest]

/-- C7: `parsePrivileges` is idempotent — rendering the parsed token list back into a comma-space-joined clause with `flattenList` and re-parsing yields the same token list, for every input string. -/
theorem parsePrivileges_idempotent (s : String) :
    parsePrivileges (flattenList (parsePrivileges s) (fun x => x)) =
      parsePrivileges s := by
  have hdm : ∀ l : List Char, (String.mk l).data = l := fun l => rfl
  unfold parsePrivileges flattenList
  rw [hdm, List.map_map, List.map_map]
  rw [show ((String.data ∘ fun x => x) ∘ fun t => String.mk (transformTok t)) =
    transformTok from funext fun t => rfl]
  have hshapes : ∀ t ∈ findAllTokens s.data, TokenShape t :=
    fun t ht => findAllTokens_shapes _ _ t ht
  have hcanon : ∀ u ∈ (findAllTokens s.data).map transformTok, CanonTok u := by
    intro u hu
    obtain ⟨t, ht, rfl⟩ := List.mem_map.mp hu
    exact transformTok_canon (hshapes t ht)
  rw [findAllTokens_canonList _ hcanon]
  rw [List.map_map]
  apply List.map_congr_left
  intro t ht
  show String.mk (transformTok (transformTok t)) = String.mk (transformTok t)
  rw [transformTok_canon_fix (transformTok_canon (hshapes t ht))]

/-- C8: parenthesized column lists are order-independent: the parser sorts the column names ascending and re-renders them comma-space-joined (sorting is invariant under permutation of the columns), so `SELECT (user, id)` and `SELECT (id, user)` both parse to exactly `[SELECT (id, user)]`, and the order of the capability tokens themselves is preserved. -/
theorem parsePrivileges_column_order :
    (∀ cols1 cols2 : List (List Char), cols1.Perm cols2 →
      sortStrings cols1 = sortStrings cols2) ∧
    parsePrivileges "SELECT (user, id)" = ["SELECT (id, user)"] ∧
    parsePrivileges "SELECT (id, user)" = ["SELECT (id, user)"] ∧
    parsePrivileges "SELECT (user, id), UPDATE, DELETE" =
      ["SELECT (id, user)", "UPDATE", "DELETE"] := by
  refine ⟨?_, by decide, by decide, by decide⟩
  intro c1 c2 hperm
  apply List.eq_of_perm_of_sorted (r := (· ≤ ·))
  · exact ((List.perm_insertionSort _ _).trans hperm).trans
      (List.perm_insertionSort _ _).symm
  · exact List.sorted_insertionSort _ _
  · exact List.sorted_insertionSort _ _

theorem parsePrivileges_column_order_witness :
    sortStrings [['u', 's', 'e', 'r'], ['i', 'd']] =
      sortStrings [['i', 'd'], ['u', 's', 'e', 'r']] :=
  parsePrivileges_column_order.1 _ _ (by decide)

end Mysql
